import Mathlib

/-!
Verification of the MTOS microkernel core against its specification.

This file contains a shallow embedding, in Lean 4, of the MTOS subsystems:
the bitmap and buddy physical page allocators, the round-robin and priority
schedulers, the message-queue and shared-memory IPC transports, and the
component registry.  Definitions are translated from the C sources
(src/kernel/...).  Machine integers (uint32_t, size_t, which are both 32 bits
wide on the i386 target, see src/include/types.h) are modelled as Nat with an
explicit reduction modulo 2^32 wherever overflow or underflow can occur.
All definitions come first; lemmas and theorems follow.
-/

namespace MTOS

/-! ## Bitmap physical allocator (src/kernel/memory/bitmap_allocator.c)

The bitmap is a list of 32-bit words, one bit per page, 0 = free.
Addresses are Nat; 0 denotes allocation failure.  All state updates
mirror the C functions with the same names. -/

namespace Bitmap

def PAGE_SIZE : Nat := 4096

def PAGES_PER_WORD : Nat := 32

structure AllocState where
  bitmap : List Nat          -- 32-bit words
  total_pages : Nat
  free_pages : Nat
  start_addr : Nat
  page_size : Nat
  last_allocated : Nat
deriving Repr, DecidableEq

def set_page_used (s : AllocState) (page_num : Nat) : AllocState :=
  let w := page_num / PAGES_PER_WORD
  let b := page_num % PAGES_PER_WORD
  { s with bitmap := s.bitmap.set w ((s.bitmap.getD w 0 ||| (1 <<< b)) % 2 ^ 32) }

def set_page_free (s : AllocState) (page_num : Nat) : AllocState :=
  let w := page_num / PAGES_PER_WORD
  let b := page_num % PAGES_PER_WORD
  -- C: word &= ~(1 << bit); bitwise-not on uint32 is xor with 2^32-1
  { s with bitmap := s.bitmap.set w (s.bitmap.getD w 0 &&& ((2 ^ 32 - 1) ^^^ (1 <<< b))) }

def is_page_free (s : AllocState) (page_num : Nat) : Bool :=
  let w := page_num / PAGES_PER_WORD
  let b := page_num % PAGES_PER_WORD
  (s.bitmap.getD w 0 &&& (1 <<< b)) = 0

/-- Next-fit scan: first free page in [start_page, total), then wrap to
[0, start_page); 0xFFFFFFFF when none (source: find_free_page). -/
def find_free_page (s : AllocState) (start_page : Nat) : Nat :=
  match (List.range' start_page (s.total_pages - start_page)).find? (fun p => is_page_free s p) with
  | some p => p
  | none =>
    match (List.range' 0 start_page).find? (fun p => is_page_free s p) with
    | some p => p
    | none => 0xFFFFFFFF

def bitmap_init (start_addr end_addr : Nat) : AllocState :=
  let total := (end_addr - start_addr) / PAGE_SIZE
  let bitmap_size := (total + PAGES_PER_WORD - 1) / PAGES_PER_WORD
  let s0 : AllocState :=
    { bitmap := List.replicate bitmap_size 0
      total_pages := total
      free_pages := total
      start_addr := start_addr
      page_size := PAGE_SIZE
      last_allocated := 0 }
  let bitmap_pages := (bitmap_size * 4 + PAGE_SIZE - 1) / PAGE_SIZE
  (List.range bitmap_pages).foldl
    (fun s i =>
      let s' := set_page_used s i
      { s' with free_pages := s'.free_pages - 1 })
    s0

/-- Returns (address, new state); address 0 = failure. -/
def bitmap_alloc_page (s : AllocState) : Nat × AllocState :=
  if s.free_pages = 0 then (0, s)
  else
    let page_num := find_free_page s s.last_allocated
    if page_num = 0xFFFFFFFF then (0, s)
    else
      let s' := set_page_used s page_num
      (s.start_addr + page_num * PAGE_SIZE,
        { s' with free_pages := s'.free_pages - 1, last_allocated := page_num })

/-- Linear first-fit scan for a run of count consecutive free pages
(source: bitmap_alloc_pages).  The cursor is not updated. -/
def bitmap_alloc_pages (s : AllocState) (count : Nat) : Nat × AllocState :=
  if count = 0 ∨ s.free_pages < count then (0, s)
  else
    match (List.range (s.total_pages - count + 1)).find?
        (fun sp => (List.range' sp count).all (fun p => is_page_free s p)) with
    | none => (0, s)
    | some sp =>
      let s' := (List.range' sp count).foldl
        (fun t p =>
          let t' := set_page_used t p
          { t' with free_pages := t'.free_pages - 1 }) s
      (s.start_addr + sp * PAGE_SIZE, s')

def bitmap_free_page (s : AllocState) (paddr : Nat) : AllocState :=
  if paddr < s.start_addr then s
  else
    let page_num := (paddr - s.start_addr) / PAGE_SIZE
    if s.total_pages ≤ page_num then s
    else if is_page_free s page_num then s
    else
      let s' := set_page_free s page_num
      { s' with free_pages := s'.free_pages + 1 }

def bitmap_get_free_pages (s : AllocState) : Nat := s.free_pages

/-- The concrete S2 scenario state: init on a 16-page region at 0x100000. -/
def s2_init : AllocState := bitmap_init 0x100000 0x110000

def s2_a1 : Nat × AllocState := bitmap_alloc_page s2_init
def s2_a2 : Nat × AllocState := bitmap_alloc_page s2_a1.2
def s2_a3 : Nat × AllocState := bitmap_alloc_page s2_a2.2
def s2_a4 : Nat × AllocState := bitmap_alloc_page s2_a3.2
/-- State after freeing the second-allocated page. -/
def s2_freed : AllocState := bitmap_free_page s2_a4.2 s2_a2.1

end Bitmap

/-! ## Component registry (src/kernel/interfaces/kernel_interfaces.c)

The registry binds each role to at most one implementation.  The six
built-in capability tables are modelled as enumerations; a null ops
pointer is Option.none.  switch_component compares only the leading one
or two characters of its arguments, exactly as the C code does. -/

namespace Registry

inductive AllocatorImpl | bitmap | buddy
deriving Repr, DecidableEq

inductive SchedulerImpl | round_robin | priority
deriving Repr, DecidableEq

inductive IpcImpl | message_queue | shared_memory
deriving Repr, DecidableEq

structure KernelRegistry where
  physical_allocator : Option AllocatorImpl
  scheduler : Option SchedulerImpl
  ipc_transport : Option IpcImpl
  -- roles declared in the header but with no built-in variants; switch_component
  -- never routes to them
  virtual_memory : Option Unit
  heap_allocator : Option Unit
  process_loader : Option Unit
deriving Repr, DecidableEq

def emptyRegistry : KernelRegistry :=
  { physical_allocator := none, scheduler := none, ipc_transport := none
    virtual_memory := none, heap_allocator := none, process_loader := none }

def register_physical_allocator (ops : Option AllocatorImpl) (reg : KernelRegistry) :
    Int × KernelRegistry :=
  match ops with
  | none => (-1, reg)
  | some o => (0, { reg with physical_allocator := some o })

def register_scheduler (ops : Option SchedulerImpl) (reg : KernelRegistry) :
    Int × KernelRegistry :=
  match ops with
  | none => (-1, reg)
  | some o => (0, { reg with scheduler := some o })

def register_ipc_transport (ops : Option IpcImpl) (reg : KernelRegistry) :
    Int × KernelRegistry :=
  match ops with
  | none => (-1, reg)
  | some o => (0, { reg with ipc_transport := some o })

/-- C string indexing; reading past the characters yields the NUL terminator. -/
def charAt (s : List Char) (i : Nat) : Char := s.getD i (Char.ofNat 0)

/-- Source: switch_component.  The C code inspects only component_type[0..1]
and component_name[0..1]. -/
def switch_component (component_type component_name : List Char) (reg : KernelRegistry) :
    Int × KernelRegistry :=
  if charAt component_type 0 = 'p' ∧ charAt component_type 1 = 'h' then
    if charAt component_name 0 = 'b' ∧ charAt component_name 1 = 'i' then
      register_physical_allocator (some .bitmap) reg
    else if charAt component_name 0 = 'b' ∧ charAt component_name 1 = 'u' then
      register_physical_allocator (some .buddy) reg
    else (-1, reg)
  else if charAt component_type 0 = 's' then
    if charAt component_name 0 = 'r' then
      register_scheduler (some .round_robin) reg
    else if charAt component_name 0 = 'p' then
      register_scheduler (some .priority) reg
    else (-1, reg)
  else if charAt component_type 0 = 'i' then
    if charAt component_name 0 = 'm' then
      register_ipc_transport (some .message_queue) reg
    else if charAt component_name 0 = 's' then
      register_ipc_transport (some .shared_memory) reg
    else (-1, reg)
  else (-1, reg)

/-- The six prefix rules that switch_component actually tests. -/
def matchesSomeRule (t n : List Char) : Prop :=
  (charAt t 0 = 'p' ∧ charAt t 1 = 'h' ∧
    ((charAt n 0 = 'b' ∧ charAt n 1 = 'i') ∨ (charAt n 0 = 'b' ∧ charAt n 1 = 'u'))) ∨
  (¬(charAt t 0 = 'p' ∧ charAt t 1 = 'h') ∧ charAt t 0 = 's' ∧
    (charAt n 0 = 'r' ∨ charAt n 0 = 'p')) ∨
  (¬(charAt t 0 = 'p' ∧ charAt t 1 = 'h') ∧ charAt t 0 ≠ 's' ∧ charAt t 0 = 'i' ∧
    (charAt n 0 = 'm' ∨ charAt n 0 = 's'))

instance (t n : List Char) : Decidable (matchesSomeRule t n) := by
  unfold matchesSomeRule; infer_instance

end Registry

/-! ## Buddy physical allocator (src/kernel/memory/buddy_allocator.c)

Per-page block records (is_free, order) plus one free list per order
0..MAX_ORDER; a free list holds page indices, front of list = head of the
C linked list.  add_to_free_list pushes at the front; the allocator always
takes the head; merge unlinks the buddy wherever it sits (List.erase, which
for a well-formed state with no duplicate entries is the pointer unlink).
sizeof(buddy_block_t) = 12 on the i386 target (two 4-byte pointers, a bool
and a uint8_t, padded to 4-byte alignment).  size_t values are kept reduced
mod 2^32. -/

namespace Buddy

def MAX_ORDER : Nat := 20

def PAGE_SIZE : Nat := 4096

def SIZEOF_BUDDY_BLOCK : Nat := 12

structure BlockMeta where
  is_free : Bool
  order : Nat
deriving Repr, DecidableEq

structure BuddyState where
  memory_start : Nat
  total_size : Nat
  total_pages : Nat
  free_lists : Nat → List Nat
  metadata : Nat → BlockMeta
  allocated_pages : Nat
  allocation_count : Nat

/-- uint32 subtraction. -/
def sub32 (a b : Nat) : Nat := (a % 2 ^ 32 + (2 ^ 32 - b % 2 ^ 32)) % 2 ^ 32

def add_to_free_list (s : BuddyState) (block order : Nat) : BuddyState :=
  { s with
    free_lists := fun k => if k = order then block :: s.free_lists order else s.free_lists k
    metadata := fun i => if i = block then { is_free := true, order := order } else s.metadata i }

def remove_from_free_list (s : BuddyState) (block order : Nat) : BuddyState :=
  { s with
    free_lists := fun k => if k = order then (s.free_lists order).erase block else s.free_lists k
    metadata := fun i => if i = block then { s.metadata i with is_free := false } else s.metadata i }

/-- Source: split_block's while loop; current counts down to target_order,
publishing the buddy half at each step when it lies inside the region.
The loop runs current - target times; fuel is a structural bound on that
count (callers pass at least current), so it never cuts the loop short. -/
def split_loop (fuel : Nat) (s : BuddyState) (block current target : Nat) : BuddyState :=
  match fuel with
  | 0 => s
  | fuel + 1 =>
    if target < current then
      let c := current - 1
      let buddy := block ^^^ (1 <<< c)
      let s1 := if buddy < s.total_pages then add_to_free_list s buddy c else s
      let s2 := { s1 with
        metadata := fun i => if i = block then { s1.metadata i with order := c } else s1.metadata i }
      split_loop fuel s2 block c target
    else s

def split_block (s : BuddyState) (block target_order : Nat) : BuddyState :=
  split_loop ((s.metadata block).order) s block ((s.metadata block).order) target_order

/-- Source: merge_block's while loop, which runs at most MAX_ORDER - order
times since order increases each round; fuel = MAX_ORDER therefore never cuts
it short.  Returns (merged block index, its order, state). -/
def merge_loop (fuel : Nat) (s : BuddyState) (block order : Nat) : Nat × Nat × BuddyState :=
  match fuel with
  | 0 => (block, order, s)
  | fuel + 1 =>
    if order < MAX_ORDER then
      let buddy := block ^^^ (1 <<< order)
      if buddy < s.total_pages ∧ (s.metadata buddy).is_free = true ∧
          (s.metadata buddy).order = order then
        let s1 := remove_from_free_list s buddy order
        let block' := if buddy < block then buddy else block
        let order' := order + 1
        let s2 := { s1 with
          metadata := fun i =>
            if i = block' then { s1.metadata i with order := order' } else s1.metadata i }
        merge_loop fuel s2 block' order'
      else (block, order, s)
    else (block, order, s)

def merge_block (s : BuddyState) (block : Nat) : Nat × BuddyState :=
  let r := merge_loop MAX_ORDER s block ((s.metadata block).order)
  (r.1, r.2.2)

/-- Source: get_order_for_pages's while loop; order rises by one per round
and the loop exits once order exceeds MAX_ORDER, so MAX_ORDER + 2 rounds of
fuel always suffice. -/
def order_loop (fuel order block_pages pages : Nat) : Nat :=
  match fuel with
  | 0 => order
  | fuel + 1 =>
    if block_pages < pages ∧ order ≤ MAX_ORDER then order_loop fuel (order + 1) (block_pages * 2) pages
    else order

/-- 0xFF means the request is too large. -/
def get_order_for_pages (pages : Nat) : Nat :=
  let order := order_loop (MAX_ORDER + 2) 0 1 pages
  if order ≤ MAX_ORDER then order else 0xFF

/-- Source: the max_order computation inside buddy_init's carving loop;
m < MAX_ORDER bounds the rounds, so MAX_ORDER + 1 rounds of fuel suffice. -/
def max_order_loop (fuel m remaining : Nat) : Nat :=
  match fuel with
  | 0 => m
  | fuel + 1 =>
    if (1 <<< (m + 1)) ≤ remaining ∧ m < MAX_ORDER then max_order_loop fuel (m + 1) remaining
    else m

/-- Source: buddy_init's while loop partitioning [current_page, total_pages)
into largest-fit power-of-two blocks.  Each round advances current_page by
at least one page, so total_pages rounds of fuel suffice. -/
def carve_loop (fuel : Nat) (s : BuddyState) (current_page : Nat) : BuddyState :=
  match fuel with
  | 0 => s
  | fuel + 1 =>
    if current_page < s.total_pages then
      let m := max_order_loop (MAX_ORDER + 1) 0 (s.total_pages - current_page)
      let s1 := add_to_free_list s current_page m
      carve_loop fuel s1 (current_page + (1 <<< m))
    else s

def metadata_pages_of (total_pages : Nat) : Nat :=
  (total_pages * SIZEOF_BUDDY_BLOCK + PAGE_SIZE - 1) / PAGE_SIZE

def usable_pages_of (total_pages : Nat) : Nat :=
  total_pages - metadata_pages_of total_pages

def buddy_init (start_addr end_addr : Nat) : BuddyState :=
  let total_size := end_addr - start_addr
  let total_pages := total_size / PAGE_SIZE
  let s0 : BuddyState :=
    { memory_start := start_addr
      total_size := total_size
      total_pages := total_pages
      free_lists := fun _ => []
      metadata := fun _ => { is_free := false, order := 0 }
      allocated_pages := 0
      allocation_count := 0 }
  carve_loop total_pages s0 (metadata_pages_of total_pages)

def buddy_alloc_pages (s : BuddyState) (count : Nat) : Nat × BuddyState :=
  if count = 0 then (0, s)
  else
    let order := get_order_for_pages count
    if order = 0xFF then (0, s)
    else
      match (List.range' order (MAX_ORDER + 1 - order)).find? (fun k => ¬ s.free_lists k = []) with
      | none => (0, s)
      | some search_order =>
        match hblk : s.free_lists search_order with
        | [] => (0, s)  -- unreachable: the found list is non-empty
        | block :: _ =>
          let s1 := remove_from_free_list s block search_order
          let s2 := if order < (s1.metadata block).order then split_block s1 block order else s1
          let s3 := { s2 with
            metadata := fun i => if i = block then { s2.metadata i with is_free := false } else s2.metadata i
            allocated_pages := (s2.allocated_pages + (1 <<< order)) % 2 ^ 32
            allocation_count := (s2.allocation_count + 1) % 2 ^ 32 }
          ((s.memory_start + block * PAGE_SIZE) % 2 ^ 32, s3)

def buddy_alloc_page (s : BuddyState) : Nat × BuddyState := buddy_alloc_pages s 1

/-- Source: buddy_free_pages; the count argument is ignored by the C code. -/
def buddy_free_pages (s : BuddyState) (paddr count : Nat) : BuddyState :=
  if paddr < s.memory_start then s
  else
    let page_index := (paddr - s.memory_start) / PAGE_SIZE
    if s.total_pages ≤ page_index then s
    else if (s.metadata page_index).is_free = true then s
    else
      let o0 := (s.metadata page_index).order
      let s1 := { s with
        allocated_pages := sub32 s.allocated_pages (1 <<< o0)
        allocation_count := sub32 s.allocation_count 1 }
      let r := merge_block s1 page_index
      add_to_free_list r.2 r.1 ((r.2.metadata r.1).order)

def buddy_free_page (s : BuddyState) (paddr : Nat) : BuddyState := buddy_free_pages s paddr 1

def buddy_get_free_pages (s : BuddyState) : Nat := sub32 s.total_pages s.allocated_pages

/-- Source: buddy_alloc_aligned.  The alignment argument is accepted but
never read by the C code. -/
def buddy_alloc_aligned (s : BuddyState) (size alignment : Nat) : Nat × BuddyState :=
  let pages_needed := (size + PAGE_SIZE - 1) / PAGE_SIZE
  let order := get_order_for_pages pages_needed
  if order = 0xFF then (0, s)
  else buddy_alloc_pages s (1 <<< order)

/-- Sum over free lists of block count times 2^order. -/
def sumFreePages (s : BuddyState) : Nat :=
  (List.range (MAX_ORDER + 1)).foldl (fun a k => a + (s.free_lists k).length * 2 ^ k) 0

/-- Well-formedness of an allocator state, as assumed by the conservation
theorem: bounded counters; every listed block is marked free with matching
order and lies inside the region, with all its split positions in range;
every page marked free appears on the list of its order. -/
def WfState (s : BuddyState) : Prop :=
  s.total_pages < 2 ^ 32 ∧
  (∀ k, k ≤ MAX_ORDER → ∀ i ∈ s.free_lists k,
    (s.metadata i).is_free = true ∧ (s.metadata i).order = k ∧ i + 2 ^ k ≤ s.total_pages ∧
    (∀ c, c < k → (i ^^^ (1 <<< c)) < s.total_pages)) ∧
  (∀ i, i < s.total_pages → (s.metadata i).is_free = true →
    (s.metadata i).order ≤ MAX_ORDER ∧ i ∈ s.free_lists ((s.metadata i).order))

/-- The concrete buddy region used in counterexamples: 16 pages at 0x100000.
Metadata occupies one page; the carving then yields blocks at page indices
1 (order 3), 9 (order 2), 13 (order 1) and 15 (order 0). -/
def bx : BuddyState := buddy_init 0x100000 0x110000

/-- bx after buddy_free_page on the metadata page itself (address 0x100000,
page index 0): the page was never allocated, yet is_free is false, so the
free path runs: allocated_pages underflows (size_t wrap) and page 0 is
published on free list 0. -/
def bxFree : BuddyState := buddy_free_page bx 0x100000

instance (s : BuddyState) : Decidable (WfState s) := by
  unfold WfState; infer_instance

end Buddy

/-! ## Priority scheduler (src/kernel/scheduler/priority_scheduler.c)

Process descriptors are values; the intrusive next/prev links become list
membership (a descriptor sits in at most one queue in any state the kernel
builds).  Descriptors are compared by pid, standing for pointer identity:
distinct descriptor objects carry distinct pids.  Queues are a function from
priority level to the list of descriptors, front of list = head. -/

namespace Priority

def MAX_PRIORITY : Nat := 31

def DEFAULT_PRIORITY : Nat := 15

def AGING_INTERVAL : Nat := 100

def AGING_BOOST : Nat := 1

structure PProc where
  pid : Nat
  priority : Nat
  original_priority : Nat
  age : Nat
  time_slice : Nat
  remaining_slice : Nat
  is_running : Bool
  is_blocked : Bool
deriving Repr, DecidableEq

/-- The 32 ready queues, as a list indexed by priority level 0..31. -/
abbrev Queues := List (List PProc)

structure SchedState where
  ready_queues : Queues
  current_process : Option PProc
  blocked_processes : List PProc
  total_processes : Nat
  context_switches : Nat
  total_wait_time : Nat
  current_tick : Nat
deriving Repr, DecidableEq

def enqueue_process (qs : Queues) (q : Nat) (p : PProc) : Queues :=
  qs.set q (qs.getD q [] ++ [p])

def calculate_time_slice (priority : Nat) : Nat := 10 + priority * 2

def priority_add_process (s : SchedState) (proc : PProc) : SchedState :=
  let prio := if MAX_PRIORITY < proc.priority then DEFAULT_PRIORITY else proc.priority
  let proc' : PProc :=
    { proc with
      priority := prio, original_priority := prio, age := 0
      time_slice := calculate_time_slice prio
      remaining_slice := calculate_time_slice prio
      is_running := false, is_blocked := false }
  { s with
    ready_queues := enqueue_process s.ready_queues prio proc'
    total_processes := (s.total_processes + 1) % 2 ^ 32 }

/-- One visit of the aging walk: age is incremented (uint32), and a process
whose age then reaches AGING_INTERVAL is detached for promotion to
min(q + AGING_BOOST, MAX_PRIORITY) with age reset to 0 (source: the body of
age_processes' inner while loop).  Returns (processes staying at level q,
promoted processes in encounter order). -/
def age_walk (q : Nat) : List PProc → List PProc × List PProc
  | [] => ([], [])
  | p :: rest =>
    let p1 : PProc := { p with age := (p.age + 1) % 2 ^ 32 }
    let r := age_walk q rest
    if AGING_INTERVAL ≤ p1.age then
      (r.1, { p1 with priority := min (q + AGING_BOOST) MAX_PRIORITY, age := 0 } :: r.2)
    else (p1 :: r.1, r.2)

/-- Aging pass over the queue at level k: promoted processes are appended to
the tail of queue k+1, which the outer loop has yet to visit. -/
def ageStepQueue (k : Nat) (qs : Queues) : Queues :=
  let w := age_walk k (qs.getD k [])
  (qs.set k w.1).set (k + 1) (qs.getD (k + 1) [] ++ w.2)

/-- Source: age_processes' outer for loop restricted to levels
k, k+1, ..., MAX_PRIORITY-1 (the full loop is ageFrom 0). -/
def ageFrom (k : Nat) (qs : Queues) : Queues :=
  (List.range' k (MAX_PRIORITY - k)).foldl (fun t j => ageStepQueue j t) qs

def age_processes (qs : Queues) : Queues := ageFrom 0 qs

def find_highest_priority (qs : Queues) : Option Nat :=
  (List.range (MAX_PRIORITY + 1)).reverse.find? (fun q => ¬ (qs.getD q []).isEmpty)

def priority_get_next (s : SchedState) : Option PProc × SchedState :=
  match find_highest_priority s.ready_queues with
  | none => (none, s)
  | some hp =>
    match s.ready_queues.getD hp [] with
    | [] => (none, s)  -- unreachable: the found queue is non-empty
    | p :: rest =>
      (some p, { s with ready_queues := s.ready_queues.set hp rest })

def priority_schedule (s : SchedState) : SchedState :=
  let n := priority_get_next s
  let next := n.1
  let s1 := n.2
  if next.map PProc.pid ≠ s.current_process.map PProc.pid then
    let s2 := match s1.current_process with
      | none => s1
      | some c =>
        let c' : PProc := { c with is_running := false }
        if c'.is_blocked = true then s1
        else { s1 with ready_queues := enqueue_process s1.ready_queues c'.priority c' }
    { s2 with
      current_process := next.map (fun p =>
        { p with is_running := true, remaining_slice := p.time_slice, age := 0 })
      context_switches := (s2.context_switches + 1) % 2 ^ 32 }
  else s1

def priority_timer_tick (s : SchedState) : SchedState :=
  let s1 := { s with current_tick := (s.current_tick + 1) % 2 ^ 32 }
  let s2 := match s1.current_process with
    | none => s1
    | some c =>
      let c' : PProc :=
        if 0 < c.remaining_slice then { c with remaining_slice := c.remaining_slice - 1 } else c
      let s' := { s1 with current_process := some c' }
      if c'.remaining_slice = 0 then priority_schedule s' else s'
  let s3 :=
    if s2.current_tick % AGING_INTERVAL = 0 then
      { s2 with ready_queues := age_processes s2.ready_queues }
    else s2
  { s3 with
    total_wait_time :=
      (s3.total_wait_time +
        (List.range (MAX_PRIORITY + 1)).foldl
          (fun a q => a + (s3.ready_queues.getD q []).length) 0) % 2 ^ 32 }

def tickIter : Nat → SchedState → SchedState
  | 0, s => s
  | n + 1, s => tickIter n (priority_timer_tick s)

/-- Where one full aging pass (levels k..30) sends a process sitting in
queue q with age a: queues below k and queue 31 are not visited; otherwise
the age is incremented, and on reaching AGING_INTERVAL the process moves up
one level (a process promoted into a level below 31 is visited again there
and aged once more). -/
def stepFrom (k q a : Nat) : Nat × Nat :=
  if q < k ∨ q = MAX_PRIORITY then (q, a)
  else if (a + 1) % 2 ^ 32 < AGING_INTERVAL then (q, (a + 1) % 2 ^ 32)
  else if q + 1 = MAX_PRIORITY then (MAX_PRIORITY, 0)
  else (q + 1, 1)

def stepAge (q a : Nat) : Nat × Nat := stepFrom 0 q a

/-- All occurrences of pid in the ready queues sit in queue q with age a and
priority field q, and there is at least one. -/
def pidAt (qs : Queues) (pid q a : Nat) : Prop :=
  (∃ p ∈ qs.getD q [], p.pid = pid ∧ p.age = a ∧ p.priority = q) ∧
  (∀ r, r ≤ MAX_PRIORITY → ∀ p ∈ qs.getD r [], p.pid = pid → r = q ∧ p.age = a ∧ p.priority = q)

instance (qs : Queues) (pid q a : Nat) : Decidable (pidAt qs pid q a) := by
  unfold pidAt; infer_instance

/-- Aging potential: number of aging passes still needed (up to off-by-one
bookkeeping) before the process reaches MAX_PRIORITY. -/
def phi (q a : Nat) : Nat := (MAX_PRIORITY - q) * AGING_INTERVAL - min a (AGING_INTERVAL - 1)

/-- Does some ready process with this pid have the given priority field? -/
def pidHasPriority (qs : Queues) (pid target : Nat) : Bool :=
  (List.range (MAX_PRIORITY + 1)).any
    (fun q => (qs.getD q []).any (fun p => p.pid == pid && p.priority == target))

/-- Concrete counterexample process: priority 30, age 0. -/
def cproc : PProc :=
  { pid := 1, priority := 30, original_priority := 30, age := 0
    time_slice := 70, remaining_slice := 70, is_running := false, is_blocked := false }

/-- Concrete scheduler state: cproc alone in ready queue 30, nothing running. -/
def cstate : SchedState :=
  { ready_queues := (List.replicate 32 ([] : List PProc)).set 30 [cproc]
    current_process := none
    blocked_processes := []
    total_processes := 1
    context_switches := 0
    total_wait_time := 0
    current_tick := 0 }


/-- Position of a tracked process after n full aging passes. -/
def ageIter : Nat → Nat × Nat → Nat × Nat
  | 0, qa => qa
  | n + 1, qa => ageIter n (stepAge qa.1 qa.2)

/-- Number of aging events among ticks t0+1 .. t0+i (multiples of
AGING_INTERVAL hit by the tick counter). -/
def agePasses (t0 i : Nat) : Nat := (t0 + i) / AGING_INTERVAL - t0 / AGING_INTERVAL

end Priority

/-! ## Round-robin scheduler (src/kernel/scheduler/round_robin_scheduler.c)

Queue nodes come from a static pool of 64 that is never recycled
(create_process_node); nodes_used is the pool cursor.  Processes are
identified by pid (pointer identity).  Only the operations exercised by the
claims are embedded; rr_block's first branch reproduces the source exactly:
when the blocked process is the current one, the code clears current and
reschedules but never links the process into the blocked list. -/

namespace RR

def NODE_POOL_SIZE : Nat := 64

def DEFAULT_TIME_QUANTUM : Nat := 20

structure RRState where
  ready_queue : List Nat
  blocked_processes : List Nat
  current_process : Option Nat
  time_quantum : Nat
  remaining_quantum : Nat
  process_count : Nat
  context_switches : Nat
  total_wait_time : Nat
  current_tick : Nat
  nodes_used : Nat
deriving Repr, DecidableEq

def rr_init : RRState :=
  { ready_queue := [], blocked_processes := [], current_process := none
    time_quantum := DEFAULT_TIME_QUANTUM, remaining_quantum := 0
    process_count := 0, context_switches := 0, total_wait_time := 0
    current_tick := 0, nodes_used := 0 }

def rr_add_process (s : RRState) (proc : Nat) : RRState :=
  if s.nodes_used < NODE_POOL_SIZE then
    { s with
      ready_queue := s.ready_queue ++ [proc]
      nodes_used := s.nodes_used + 1
      process_count := (s.process_count + 1) % 2 ^ 32 }
  else s  -- create_process_node returned NULL: the process is silently not enrolled

def rr_schedule (s : RRState) : RRState :=
  if s.current_process = none ∨ s.remaining_quantum = 0 then
    let s1 := match s.current_process with
      | some c =>
        if s.remaining_quantum = 0 then
          if s.nodes_used < NODE_POOL_SIZE then
            { s with ready_queue := s.ready_queue ++ [c], nodes_used := s.nodes_used + 1 }
          else s  -- node allocation failed: the preempted current is not requeued
        else s
      | none => s
    match s1.ready_queue with
    | [] =>
      if (none : Option Nat) ≠ s1.current_process then
        { s1 with current_process := none, remaining_quantum := s1.time_quantum
                  context_switches := (s1.context_switches + 1) % 2 ^ 32 }
      else s1
    | p :: rest =>
      let s2 := { s1 with ready_queue := rest }
      if (some p) ≠ s2.current_process then
        { s2 with current_process := some p, remaining_quantum := s2.time_quantum
                  context_switches := (s2.context_switches + 1) % 2 ^ 32 }
      else s2
  else s

def rr_yield (s : RRState) : RRState :=
  let s1 := match s.current_process with
    | some c =>
      let s' :=
        if s.nodes_used < NODE_POOL_SIZE then
          { s with ready_queue := s.ready_queue ++ [c], nodes_used := s.nodes_used + 1 }
        else s
      { s' with current_process := none, remaining_quantum := 0 }
    | none => s
  rr_schedule s1

def rr_block (s : RRState) (proc : Nat) : RRState :=
  if s.current_process = some proc then
    -- source lines 240-243: current is cleared and a reschedule happens;
    -- the add-to-blocked-list code sits in the other branch only
    rr_schedule { s with current_process := none, remaining_quantum := 0 }
  else if proc ∈ s.ready_queue then
    { s with
      ready_queue := s.ready_queue.erase proc
      blocked_processes := proc :: s.blocked_processes }
  else s
  -- a process that is neither current nor in the ready queue but already on the
  -- blocked list would be unlinked with the ready-queue head/tail pointers
  -- (source remove_node_from_queue); no claim exercises that path

def rr_unblock (s : RRState) (proc : Nat) : RRState :=
  if proc ∈ s.blocked_processes then
    { s with
      blocked_processes := s.blocked_processes.erase proc
      ready_queue := s.ready_queue ++ [proc] }
  else s

def rr_timer_tick (s : RRState) : RRState :=
  let s1 := { s with current_tick := (s.current_tick + 1) % 2 ^ 32 }
  let s2 :=
    match s1.current_process with
    | some _ =>
      if 0 < s1.remaining_quantum then
        { s1 with remaining_quantum := s1.remaining_quantum - 1 }
      else s1
    | none => s1
  let s3 := { s2 with
    total_wait_time := (s2.total_wait_time + s2.ready_queue.length) % 2 ^ 32 }
  if s3.remaining_quantum = 0 then rr_schedule s3 else s3

/-- Whether a process is tracked anywhere by the round-robin scheduler. -/
def rrHolds (s : RRState) (proc : Nat) : Prop :=
  s.current_process = some proc ∨ proc ∈ s.ready_queue ∨ proc ∈ s.blocked_processes

instance (s : RRState) (proc : Nat) : Decidable (rrHolds s proc) := by
  unfold rrHolds; infer_instance

/-- The failing trace for the blocked-current bug: enroll process 1,
dispatch it, then block it. -/
def rrBugState : RRState := rr_block (rr_schedule (rr_add_process rr_init 1)) 1

end RR

/-! ## IPC message envelope (src/kernel/interfaces/kernel_interfaces.h) -/

structure IpcMessage where
  sender_id : Nat
  receiver_id : Nat
  message_id : Nat
  type : Nat
  size : Nat
  data : List Nat
  timestamp : Nat
  flags : Nat
deriving Repr, DecidableEq

/-- A concrete message from process 1 to process 2. -/
def msgA : IpcMessage :=
  { sender_id := 1, receiver_id := 2, message_id := 7, type := 0, size := 3
    data := [10, 20, 30], timestamp := 0, flags := 0 }

/-- A concrete message from process 3 to process 4. -/
def msgB : IpcMessage :=
  { msgA with sender_id := 3, receiver_id := 4, message_id := 8, data := [40, 50] }

/-! ## Message-queue IPC (src/kernel/ipc/message_queue_ipc.c)

32 channel slots; each channel owns a bounded FIFO of entries drawn from a
shared 512-entry pool.  A queued entry records its pool index, the message
copied by value, and the enqueue timestamp.  The out-parameter of receive is
modelled as an Option result (callers in the claims never pass NULL). -/

namespace MQ

def MAX_CHANNELS : Nat := 32

def MAX_QUEUE_DEPTH : Nat := 16

def POOL_SIZE : Nat := MAX_CHANNELS * MAX_QUEUE_DEPTH

structure PoolEntry where
  idx : Nat
  message : IpcMessage
  timestamp : Nat
deriving Repr, DecidableEq

structure MessageChannel where
  channel_id : Nat
  sender_id : Nat
  receiver_id : Nat
  queue : List PoolEntry
  max_queue_size : Nat
  is_blocking : Bool
  in_use : Bool
  messages_sent : Nat
  messages_received : Nat
  messages_dropped : Nat
deriving Repr, DecidableEq

def emptyChannel : MessageChannel :=
  { channel_id := 0, sender_id := 0, receiver_id := 0, queue := []
    max_queue_size := MAX_QUEUE_DEPTH, is_blocking := true, in_use := false
    messages_sent := 0, messages_received := 0, messages_dropped := 0 }

structure MqState where
  channels : List MessageChannel
  next_channel_id : Nat
  active_channels : Nat
  current_tick : Nat
  entry_used : List Bool
  next_entry_index : Nat
deriving Repr, DecidableEq

def mq_init : MqState :=
  { channels := List.replicate MAX_CHANNELS emptyChannel
    next_channel_id := 1
    active_channels := 0
    current_tick := 0
    entry_used := List.replicate POOL_SIZE false
    next_entry_index := 0 }

/-- Circular first-free search from next_entry_index (source:
alloc_message_entry).  Returns the pool index and the updated pool state. -/
def alloc_message_entry (s : MqState) : Option (Nat × MqState) :=
  match (List.range POOL_SIZE).find?
      (fun i => !(s.entry_used.getD ((s.next_entry_index + i) % POOL_SIZE) true)) with
  | none => none
  | some i =>
    let idx := (s.next_entry_index + i) % POOL_SIZE
    some (idx,
      { s with
        entry_used := s.entry_used.set idx true
        next_entry_index := (idx + 1) % POOL_SIZE })

def free_message_entry (s : MqState) (idx : Nat) : MqState :=
  if idx < POOL_SIZE then { s with entry_used := s.entry_used.set idx false } else s

def find_channel_index (s : MqState) (channel_id : Nat) : Option Nat :=
  s.channels.findIdx? (fun ch => ch.in_use && ch.channel_id == channel_id)

def mq_create_channel (s : MqState) (sender_id receiver_id : Nat) : Int × MqState :=
  match s.channels.find?
      (fun ch => ch.in_use && ch.sender_id == sender_id && ch.receiver_id == receiver_id) with
  | some ch => ((ch.channel_id : Int), s)
  | none =>
    match s.channels.findIdx? (fun ch => !ch.in_use) with
    | none => (-1, s)
    | some i =>
      let ch : MessageChannel :=
        { channel_id := s.next_channel_id, sender_id := sender_id, receiver_id := receiver_id
          queue := [], max_queue_size := MAX_QUEUE_DEPTH, is_blocking := true, in_use := true
          messages_sent := 0, messages_received := 0, messages_dropped := 0 }
      ((s.next_channel_id : Int),
        { s with
          channels := s.channels.set i ch
          next_channel_id := (s.next_channel_id + 1) % 2 ^ 32
          active_channels := (s.active_channels + 1) % 2 ^ 32 })

def mq_destroy_channel (s : MqState) (channel_id : Nat) : MqState :=
  match find_channel_index s channel_id with
  | none => s
  | some i =>
    let ch := s.channels.getD i emptyChannel
    let s1 := ch.queue.foldl (fun t e => free_message_entry t e.idx) s
    { s1 with
      channels := s1.channels.set i { ch with queue := [], in_use := false }
      active_channels := s1.active_channels - 1 }

def mq_send_message (s : MqState) (channel_id : Nat) (msg : Option IpcMessage) : Int × MqState :=
  match msg with
  | none => (-1, s)
  | some m =>
    match find_channel_index s channel_id with
    | none => (-1, s)
    | some i =>
      let ch := s.channels.getD i emptyChannel
      if ch.max_queue_size ≤ ch.queue.length then
        let ch' := { ch with messages_dropped := (ch.messages_dropped + 1) % 2 ^ 32 }
        (-1, { s with channels := s.channels.set i ch' })
      else
        match alloc_message_entry s with
        | none =>
          let ch' := { ch with messages_dropped := (ch.messages_dropped + 1) % 2 ^ 32 }
          (-1, { s with channels := s.channels.set i ch' })
        | some (idx, s1) =>
          let entry : PoolEntry := { idx := idx, message := m, timestamp := s1.current_tick }
          let ch' := { ch with
            queue := ch.queue ++ [entry]
            messages_sent := (ch.messages_sent + 1) % 2 ^ 32 }
          (0, { s1 with channels := s1.channels.set i ch' })

def mq_receive_message (s : MqState) (channel_id : Nat) : Int × Option IpcMessage × MqState :=
  match find_channel_index s channel_id with
  | none => (-1, none, s)
  | some i =>
    let ch := s.channels.getD i emptyChannel
    match ch.queue with
    | [] => (-1, none, s)
    | e :: rest =>
      let ch' := { ch with
        queue := rest
        messages_received := (ch.messages_received + 1) % 2 ^ 32 }
      let s1 := { s with channels := s.channels.set i ch' }
      (0, some e.message, free_message_entry s1 e.idx)

def mq_try_receive (s : MqState) (channel_id : Nat) : Int × Option IpcMessage × MqState :=
  mq_receive_message s channel_id

def mq_tick (s : MqState) : MqState := { s with current_tick := (s.current_tick + 1) % 2 ^ 32 }

/-- Operations driving the transport in a session (after the single init). -/
inductive MqOp
  | create (sender_id receiver_id : Nat)
  | destroy (channel_id : Nat)
  | send (channel_id : Nat) (m : IpcMessage)
  | recv (channel_id : Nat)
  | tryRecv (channel_id : Nat)
  | tick
deriving Repr, DecidableEq

/-- Step plus the delivery event it produces: some (true, c, m) when a send
of m on channel c succeeds, some (false, c, m) when a receive on channel c
returns m. -/
def mq_step_ev (s : MqState) : MqOp → MqState × Option (Bool × Nat × IpcMessage)
  | .create a b => ((mq_create_channel s a b).2, none)
  | .destroy c => (mq_destroy_channel s c, none)
  | .send c m =>
    let r := mq_send_message s c (some m)
    (r.2, if r.1 = 0 then some (true, c, m) else none)
  | .recv c =>
    let r := mq_receive_message s c
    (r.2.2, r.2.1.map (fun m => (false, c, m)))
  | .tryRecv c =>
    let r := mq_try_receive s c
    (r.2.2, r.2.1.map (fun m => (false, c, m)))
  | .tick => (mq_tick s, none)

/-- Replay a session, accumulating for every channel id the list of accepted
sends and the list of delivered receives, in order. -/
def runLogs : MqState → (Nat → List IpcMessage) → (Nat → List IpcMessage) →
    List MqOp → MqState × (Nat → List IpcMessage) × (Nat → List IpcMessage)
  | s, sl, rl, [] => (s, sl, rl)
  | s, sl, rl, op :: ops =>
    let r := mq_step_ev s op
    match r.2 with
    | some (true, c, m) => runLogs r.1 (fun x => if x = c then sl x ++ [m] else sl x) rl ops
    | some (false, c, m) => runLogs r.1 sl (fun x => if x = c then rl x ++ [m] else rl x) ops
    | none => runLogs r.1 sl rl ops

def mqRun (ops : List MqOp) : MqState × (Nat → List IpcMessage) × (Nat → List IpcMessage) :=
  runLogs mq_init (fun _ => []) (fun _ => []) ops

/-- Invariant tying the transport state to the send/receive logs: channel
slots are the 32 array entries; every live channel's accepted sends are its
delivered receives followed by its queued messages; live channel ids are
below the id counter and pairwise distinct; ids not yet issued have empty
logs; and on every channel id the receive log is a prefix of the send log. -/
def MqInv (st : MqState) (sl rl : Nat → List IpcMessage) : Prop :=
  st.channels.length = MAX_CHANNELS ∧
  (∀ i, i < MAX_CHANNELS →
    (st.channels.getD i emptyChannel).in_use = true →
    (st.channels.getD i emptyChannel).channel_id < st.next_channel_id ∧
    sl (st.channels.getD i emptyChannel).channel_id =
      rl (st.channels.getD i emptyChannel).channel_id ++
        ((st.channels.getD i emptyChannel).queue.map PoolEntry.message)) ∧
  (∀ i j, i < MAX_CHANNELS → j < MAX_CHANNELS →
    (st.channels.getD i emptyChannel).in_use = true →
    (st.channels.getD j emptyChannel).in_use = true →
    (st.channels.getD i emptyChannel).channel_id = (st.channels.getD j emptyChannel).channel_id →
    i = j) ∧
  (∀ c, st.next_channel_id ≤ c → sl c = [] ∧ rl c = []) ∧
  (∀ c, ∃ t, sl c = rl c ++ t)

/-- Concrete session used to witness the FIFO theorem. -/
def mqWitnessOps : List MqOp :=
  [.create 1 2, .send 1 msgA, .send 1 msgB, .recv 1, .recv 1, .recv 1]

end MQ

/-! ## Shared-memory IPC (src/kernel/ipc/shared_memory_ipc.c)

64 region slots; each active region holds one message envelope in its
backing memory.  The spin flag is acquired and released inside each
operation of this single-threaded model, so it is false in every visible
state and the acquire/release pair has no net effect.  The static backing
pool only moves a bump cursor (allocate_shared_memory). -/

namespace SHM

def MAX_SHARED_REGIONS : Nat := 64

def MAX_PROCESSES_PER_REGION : Nat := 8

def SHARED_REGION_SIZE : Nat := 4096

def MAX_MESSAGE_SIZE : Nat := 1024

structure SharedMessage where
  sender_id : Nat
  receiver_id : Nat
  message_id : Nat
  size : Nat
  data : List Nat
  valid : Bool
deriving Repr, DecidableEq

def zeroSharedMessage : SharedMessage :=
  { sender_id := 0, receiver_id := 0, message_id := 0, size := 0, data := [], valid := false }

structure SharedRegion where
  region_id : Nat
  creator_id : Nat
  participants : List Nat
  memory : Option SharedMessage
  size : Nat
  permissions : Nat
  in_use : Bool
  lock : Bool
  read_index : Nat
  write_index : Nat
  has_data : Bool
deriving Repr, DecidableEq

def emptyRegion : SharedRegion :=
  { region_id := 0, creator_id := 0, participants := [], memory := none, size := 0
    permissions := 0, in_use := false, lock := false, read_index := 0, write_index := 0
    has_data := false }

structure ShmState where
  regions : List SharedRegion
  next_region_id : Nat
  active_regions : Nat
  total_messages_sent : Nat
  total_messages_received : Nat
  pool_offset : Nat
deriving Repr, DecidableEq

/-- Fresh transport state right after shm_init on a fresh boot (the static
backing pool starts with cursor 0). -/
def shm_state0 : ShmState :=
  { regions := List.replicate MAX_SHARED_REGIONS emptyRegion
    next_region_id := 1
    active_regions := 0
    total_messages_sent := 0
    total_messages_received := 0
    pool_offset := 0 }

def check_region_permission (region : SharedRegion) (process_id required_permission : Nat) : Bool :=
  region.in_use && region.participants.contains process_id &&
    (region.permissions &&& required_permission) != 0

def find_region_index (s : ShmState) (channel_id : Nat) : Option Nat :=
  s.regions.findIdx? (fun r => r.in_use && r.region_id == channel_id)

def shm_create_channel (s : ShmState) (sender_id receiver_id : Nat) : Int × ShmState :=
  match s.regions.find?
      (fun r => r.in_use && r.participants.contains sender_id &&
        r.participants.contains receiver_id) with
  | some r => ((r.region_id : Int), s)
  | none =>
    match s.regions.findIdx? (fun r => !r.in_use) with
    | none => (-1, s)
    | some i =>
      if MAX_SHARED_REGIONS * SHARED_REGION_SIZE < s.pool_offset + SHARED_REGION_SIZE then
        -- allocate_shared_memory returned NULL; the slot keeps in_use = false
        let r' := { s.regions.getD i emptyRegion with memory := none }
        (-1, { s with regions := s.regions.set i r' })
      else
        let region : SharedRegion :=
          { region_id := s.next_region_id, creator_id := sender_id
            participants := [sender_id, receiver_id]
            memory := some zeroSharedMessage
            size := SHARED_REGION_SIZE, permissions := 0x3, in_use := true, lock := false
            read_index := 0, write_index := 0, has_data := false }
        ((s.next_region_id : Int),
          { s with
            regions := s.regions.set i region
            next_region_id := (s.next_region_id + 1) % 2 ^ 32
            active_regions := (s.active_regions + 1) % 2 ^ 32
            pool_offset := s.pool_offset + SHARED_REGION_SIZE })

def shm_destroy_channel (s : ShmState) (channel_id : Nat) : ShmState :=
  match find_region_index s channel_id with
  | none => s
  | some i =>
    { s with
      regions := s.regions.set i
        { s.regions.getD i emptyRegion with in_use := false, memory := none }
      active_regions := s.active_regions - 1 }

def shm_send_message (s : ShmState) (channel_id : Nat) (msg : Option IpcMessage) : Int × ShmState :=
  match msg with
  | none => (-1, s)
  | some m =>
    match find_region_index s channel_id with
    | none => (-1, s)
    | some i =>
      let region := s.regions.getD i emptyRegion
      if ¬ check_region_permission region m.sender_id 0x2 then (-1, s)
      else if region.has_data then (-1, s)  -- slot occupied: lock released, nothing changed
      else
        match region.memory with
        | none => (-1, s)  -- an in_use region always carries memory; NULL would fault in C
        | some _ =>
          let sz := if m.size < MAX_MESSAGE_SIZE then m.size else MAX_MESSAGE_SIZE
          let shared_msg : SharedMessage :=
            { sender_id := m.sender_id, receiver_id := m.receiver_id
              message_id := m.message_id, size := sz, data := m.data.take sz, valid := true }
          (0, { s with
            regions := s.regions.set i { region with memory := some shared_msg, has_data := true }
            total_messages_sent := (s.total_messages_sent + 1) % 2 ^ 32 })

def shm_receive_message (s : ShmState) (channel_id : Nat) : Int × Option SharedMessage × ShmState :=
  match find_region_index s channel_id with
  | none => (-1, none, s)
  | some i =>
    let region := s.regions.getD i emptyRegion
    if ¬ region.has_data then (-1, none, s)
    else
      match region.memory with
      | none => (-1, none, s)  -- unreachable for in_use regions
      | some mem =>
        if mem.valid = false then (-1, none, s)
        else
          (0, some mem,
            { s with
              regions := s.regions.set i
                { region with memory := some { mem with valid := false }, has_data := false }
              total_messages_received := (s.total_messages_received + 1) % 2 ^ 32 })

def shm_try_receive (s : ShmState) (channel_id : Nat) : Int × Option SharedMessage × ShmState :=
  shm_receive_message s channel_id

def shm_grant_capability (s : ShmState) (grantor grantee rights : Nat) : ShmState :=
  { s with
    regions := s.regions.map (fun r =>
      if r.in_use && r.creator_id == grantor &&
          r.participants.length < MAX_PROCESSES_PER_REGION &&
          !(r.participants.contains grantee) then
        { r with
          participants := r.participants ++ [grantee]
          permissions := r.permissions ||| rights }
      else r) }

def shm_can_send (s : ShmState) (channel_id : Nat) : Bool :=
  match find_region_index s channel_id with
  | none => false
  | some i => !(s.regions.getD i emptyRegion).has_data

def shm_has_messages (s : ShmState) (channel_id : Nat) : Bool :=
  match find_region_index s channel_id with
  | none => false
  | some i => (s.regions.getD i emptyRegion).has_data

/-- Session operations considered by the rendezvous invariant; destroy_channel
is excluded (destroying a region that still holds a message orphans it and
breaks any counter accounting). -/
inductive ShmOp
  | create (sender_id receiver_id : Nat)
  | send (channel_id : Nat) (m : IpcMessage)
  | recv (channel_id : Nat)
  | tryRecv (channel_id : Nat)
  | grant (grantor grantee rights : Nat)
deriving Repr, DecidableEq

def shm_step (s : ShmState) : ShmOp → ShmState
  | .create a b => (shm_create_channel s a b).2
  | .send c m => (shm_send_message s c (some m)).2
  | .recv c => (shm_receive_message s c).2.2
  | .tryRecv c => (shm_try_receive s c).2.2
  | .grant g e r => shm_grant_capability s g e r

def shmRun (ops : List ShmOp) : ShmState := ops.foldl shm_step shm_state0

/-- Run from an arbitrary transport state. -/
def shmRunFrom (s : ShmState) (ops : List ShmOp) : ShmState := ops.foldl shm_step s

/-- Number of regions whose single slot currently holds a message. -/
def dataRegionCount (s : ShmState) : Nat := s.regions.countP (fun r => r.has_data)

/-- The per-region reading of the rendezvous claim, evaluated with the
transport's (global) counters, for the region carrying a given id:
sent_count == received_count + (1 if has_data else 0). -/
def perRegionClaim (s : ShmState) (channel_id : Nat) : Bool :=
  match find_region_index s channel_id with
  | some i =>
    s.total_messages_sent ==
      s.total_messages_received +
        (if (s.regions.getD i emptyRegion).has_data then 1 else 0)
  | none => true

/-- Rendezvous accounting at the transport level: the global sent counter
equals receives plus occupied slots (counters are uint32, hence the mod). -/
def ShmInv (s : ShmState) : Prop :=
  s.regions.length = MAX_SHARED_REGIONS ∧
  (∀ i, i < MAX_SHARED_REGIONS →
    (s.regions.getD i emptyRegion).in_use = false →
    (s.regions.getD i emptyRegion).has_data = false) ∧
  s.total_messages_sent = (s.total_messages_received + dataRegionCount s) % 2 ^ 32

instance (s : ShmState) : Decidable (ShmInv s) := by
  unfold ShmInv; infer_instance

/-- Two regions, both occupied: create (1,2) and (3,4), send on each. -/
def shmTwo : ShmState := shmRun [.create 1 2, .create 3 4, .send 1 msgA, .send 2 msgB]

/-- One region with one undelivered message, for the occupied-send witness. -/
def shmOne : ShmState := shmRun [.create 1 2, .send 1 msgA]

end SHM

end MTOS

/-!
# Lemmas and theorems

Helper lemmas first, then one theorem per claim (with its counterexample and
witness theorems where applicable).
-/

namespace MTOS

/-! ### List helper lemmas -/

theorem getD_set_self {α : Type _} (l : List α) (i : Nat) (x d : α) (h : i < l.length) :
    (l.set i x).getD i d = x := by
  simp [List.getD_eq_getElem?_getD, List.getElem?_set_self h]

theorem getD_set_ne {α : Type _} (l : List α) (i j : Nat) (x d : α) (h : i ≠ j) :
    (l.set i x).getD j d = l.getD j d := by
  simp [List.getD_eq_getElem?_getD, List.getElem?_set_ne h]

theorem findIdx?_spec {α : Type _} (p : α → Bool) (d : α) :
    ∀ (l : List α) (j i : Nat), List.findIdx? p l j = some i →
      j ≤ i ∧ i - j < l.length ∧ p (l.getD (i - j) d) = true
  | [], _, _, h => by simp [List.findIdx?] at h
  | x :: xs, j, i, h => by
    rw [List.findIdx?_cons] at h
    by_cases hx : p x = true
    · rw [if_pos hx] at h
      have hji : j = i := Option.some.inj h
      subst hji
      simpa [hx] using Nat.le_refl j
    · rw [if_neg hx] at h
      obtain ⟨h1, h2, h3⟩ := findIdx?_spec p d xs (j + 1) i h
      refine ⟨by omega, by simp; omega, ?_⟩
      have : i - j = (i - (j + 1)) + 1 := by omega
      rw [this]
      simpa using h3

theorem findIdx?_some_spec {α : Type _} (p : α → Bool) (d : α) (l : List α) (i : Nat)
    (h : List.findIdx? p l = some i) : i < l.length ∧ p (l.getD i d) = true := by
  have := findIdx?_spec p d l 0 i h
  simpa using this

/-! ### C9 — bitmap scenario S2 -/

namespace Bitmap

/-- C9 (counterexample): after bitmap_init on a 16-page region, four
alloc_page calls (pages 1,2,3,4) and free_page of the second-allocated page
(page 2), alloc_pages(2) does not fail as the claim states: pages 5..15 are
still free, so it succeeds and returns the address of page 5. -/
theorem c9_s2_counterexample :
    s2_a1.1 = 0x101000 ∧ s2_a2.1 = 0x102000 ∧ s2_a3.1 = 0x103000 ∧ s2_a4.1 = 0x104000 ∧
    (bitmap_alloc_pages s2_freed 2).1 = 0x105000 ∧
    (bitmap_alloc_pages s2_freed 2).1 ≠ 0 := by decide

/-- C9 (amended): in scenario S2 the 16-page region keeps eleven free pages
after the four single-page allocations, so alloc_pages(2) succeeds, returning
the address of page 5 (the first free contiguous pair); the subsequent
alloc_pages(1) still returns the address of the freed second-allocated page
(page 2), because alloc_pages scans from page 0. -/
theorem c9_s2_amended :
    s2_init.total_pages = 16 ∧ s2_init.free_pages = 15 ∧
    s2_a1.1 = 0x101000 ∧ s2_a2.1 = 0x102000 ∧ s2_a3.1 = 0x103000 ∧ s2_a4.1 = 0x104000 ∧
    s2_freed.free_pages = 12 ∧
    (bitmap_alloc_pages s2_freed 2).1 = 0x105000 ∧
    (bitmap_alloc_pages (bitmap_alloc_pages s2_freed 2).2 1).1 = s2_a2.1 := by decide

end Bitmap

/-! ### C8 — registry switch_component -/

namespace Registry

/-- C8 (counterexample): switch_component matches only leading characters,
so the unknown role "philosophy" with the unknown name "bicycle" is accepted
(result 0) and rebinds the physical allocator to bitmap, contradicting the
claim that any unknown role or name fails with -1 and leaves the bindings
unchanged. -/
theorem c8_switch_counterexample :
    ("philosophy".toList ≠ "physical_allocator".toList ∧
      "philosophy".toList ≠ "scheduler".toList ∧
      "philosophy".toList ≠ "ipc_transport".toList ∧
      "bicycle".toList ≠ "bitmap".toList ∧ "bicycle".toList ≠ "buddy".toList) ∧
    switch_component "philosophy".toList "bicycle".toList emptyRegistry =
      (0, { emptyRegistry with physical_allocator := some .bitmap }) ∧
    switch_component "philosophy".toList "bicycle".toList emptyRegistry ≠
      (-1, emptyRegistry) := by decide

/-- C8 (amended): switch_component matches its arguments only by leading
characters (role: "ph..."/"s..."/"i..."; name: "bi...", "bu...", "r...",
"p...", "m...", "s..." according to role).  Whenever the pair matches none
of those six prefix rules, it returns -1 and the registry is unchanged;
strings sharing a prefix with a built-in name are accepted even when they
are not valid role or variant names. -/
theorem c8_switch_amended (t n : List Char) (reg : KernelRegistry)
    (h : ¬ matchesSomeRule t n) : switch_component t n reg = (-1, reg) := by
  unfold switch_component
  by_cases h1 : charAt t 0 = 'p' ∧ charAt t 1 = 'h'
  · rw [if_pos h1]
    by_cases h2 : charAt n 0 = 'b' ∧ charAt n 1 = 'i'
    · exact absurd (Or.inl ⟨h1.1, h1.2, Or.inl h2⟩) h
    · rw [if_neg h2]
      by_cases h3 : charAt n 0 = 'b' ∧ charAt n 1 = 'u'
      · exact absurd (Or.inl ⟨h1.1, h1.2, Or.inr h3⟩) h
      · rw [if_neg h3]
  · rw [if_neg h1]
    by_cases h2 : charAt t 0 = 's'
    · rw [if_pos h2]
      by_cases h3 : charAt n 0 = 'r'
      · exact absurd (Or.inr (Or.inl ⟨h1, h2, Or.inl h3⟩)) h
      · rw [if_neg h3]
        by_cases h4 : charAt n 0 = 'p'
        · exact absurd (Or.inr (Or.inl ⟨h1, h2, Or.inr h4⟩)) h
        · rw [if_neg h4]
    · rw [if_neg h2]
      by_cases h3 : charAt t 0 = 'i'
      · rw [if_pos h3]
        by_cases h4 : charAt n 0 = 'm'
        · exact absurd (Or.inr (Or.inr ⟨h1, h2, h3, Or.inl h4⟩)) h
        · rw [if_neg h4]
          by_cases h5 : charAt n 0 = 's'
          · exact absurd (Or.inr (Or.inr ⟨h1, h2, h3, Or.inr h5⟩)) h
          · rw [if_neg h5]
      · rw [if_neg h3]

/-- C8 (witness): the amended theorem applied at the concrete pair
("xyz", "abc"), which matches no prefix rule. -/
theorem c8_switch_witness :
    ¬ matchesSomeRule "xyz".toList "abc".toList ∧
    switch_component "xyz".toList "abc".toList emptyRegistry = (-1, emptyRegistry) :=
  ⟨by decide, c8_switch_amended "xyz".toList "abc".toList emptyRegistry (by decide)⟩

end Registry

/-! ### C2 — round-robin loses the blocked current process -/

namespace RR

/-- C2 (code_bug): evaluating the scheduler at the failing input.  After
init, add_process(1), schedule (process 1 becomes current) the process is
tracked; rr_block(1) then takes the current-process branch, which clears
current and reschedules but never links the process into the blocked list
(the add-to-blocked code sits only in the non-current branch), so process 1
is in no queue afterwards: the ready queue and blocked list are empty and
nothing is current — the scheduler dropped a process without remove_process,
violating the claimed invariant. -/
theorem c2_block_current_loses_process :
    rrHolds (rr_add_process rr_init 1) 1 ∧
    rrHolds (rr_schedule (rr_add_process rr_init 1)) 1 ∧
    (rr_schedule (rr_add_process rr_init 1)).current_process = some 1 ∧
    ¬ rrHolds rrBugState 1 ∧
    rrBugState.ready_queue = [] ∧
    rrBugState.blocked_processes = [] ∧
    rrBugState.current_process = none := by decide

end RR

/-! ### C4, C7, C3 counterexamples — buddy allocator -/

namespace Buddy

/-- C4 (code_bug): evaluating buddy_init at the failing input, a 16-page
region at 0x100000.  The metadata occupies page 0 and the carving loop then
starts at page 1, so free list 3 holds the block at page index 1, which is
not a multiple of 2^3: the natural-alignment invariant claimed by the spec
(and asserted by the allocator's own comments) is already false in the state
immediately after init. -/
theorem c4_alignment_violated_at_init :
    bx.total_pages = 16 ∧
    bx.free_lists 3 = [1] ∧
    (1 : Nat) % 2 ^ 3 ≠ 0 ∧
    ¬ (∀ k, k ≤ MAX_ORDER → ∀ i ∈ bx.free_lists k, i % 2 ^ k = 0) := by decide

/-- C7 (counterexample): on the 16-page region, alloc_aligned(4096, 8192)
returns the address of page 15 (0x10F000), which is not a multiple of the
requested 8192 alignment — the alignment argument is not honoured. -/
theorem c7_alloc_aligned_counterexample :
    (buddy_alloc_aligned bx 4096 8192).1 = 0x10F000 ∧
    (buddy_alloc_aligned bx 4096 8192).1 % 8192 ≠ 0 ∧
    (buddy_alloc_aligned bx 4096 8192).1 ≠ 0 := by decide

/-- C7 (amended): buddy_alloc_aligned ignores its alignment argument
entirely: it rounds only the size up to the smallest power-of-two order and
calls alloc_pages with that block size, so its result is independent of the
requested alignment, and the addresses it returns need not be multiples of
the alignment. -/
theorem c7_alloc_aligned_amended (s : BuddyState) (size alignment : Nat) :
    buddy_alloc_aligned s size alignment =
      (let order := get_order_for_pages ((size + PAGE_SIZE - 1) / PAGE_SIZE)
       if order = 0xFF then (0, s) else buddy_alloc_pages s (1 <<< order)) ∧
    buddy_alloc_aligned s size alignment = buddy_alloc_aligned s size 1 :=
  ⟨rfl, rfl⟩

/-- C3 (counterexample): immediately after buddy_init on 16 pages the free
lists cover the 15 usable pages (the metadata page is excluded), yet
get_free_pages reports total - allocated = 16, so the claimed identity
get_free_pages + allocated = usable fails; and after buddy_free_page on the
never-allocated metadata page, allocated_pages underflows to 2^32 - 1 and
page 0 is republished, so the free-list sum plus allocated no longer equals
the usable page count either. -/
theorem c3_conservation_counterexample :
    sumFreePages bx = 15 ∧
    usable_pages_of bx.total_pages = 15 ∧
    bx.allocated_pages = 0 ∧
    buddy_get_free_pages bx + bx.allocated_pages ≠ usable_pages_of bx.total_pages ∧
    bxFree.allocated_pages = 2 ^ 32 - 1 ∧
    sumFreePages bxFree + bxFree.allocated_pages ≠ usable_pages_of bxFree.total_pages := by
  decide

end Buddy

/-! ### C5 counterexample — shared-memory rendezvous is global, not per region -/

namespace SHM

/-- C5 (counterexample): sent/received counters live in the transport, not
in the region.  With two regions (ids 1 and 2) each holding one undelivered
message, the per-region equation for region 1 would require
sent = received + 1, but the global counters read 2 = 0 + 1. -/
theorem c5_rendezvous_counterexample :
    shmTwo.total_messages_sent = 2 ∧
    shmTwo.total_messages_received = 0 ∧
    (shmTwo.regions.getD 0 emptyRegion).region_id = 1 ∧
    (shmTwo.regions.getD 0 emptyRegion).has_data = true ∧
    (shmTwo.regions.getD 1 emptyRegion).region_id = 2 ∧
    (shmTwo.regions.getD 1 emptyRegion).has_data = true ∧
    perRegionClaim shmTwo 1 = false := by decide

theorem countP_set_getD (p : SharedRegion → Bool) (l : List SharedRegion) (i : Nat)
    (x : SharedRegion) (h : i < l.length) :
    (l.set i x).countP p =
      l.countP p - (if p (l.getD i emptyRegion) then 1 else 0) + (if p x then 1 else 0) := by
  rw [List.countP_set p l i x h, List.getD_eq_getElem l emptyRegion h]

theorem find_region_spec (s : ShmState) (cid i : Nat) (h : find_region_index s cid = some i) :
    i < s.regions.length ∧ (s.regions.getD i emptyRegion).in_use = true ∧
      (s.regions.getD i emptyRegion).region_id = cid := by
  have hs := findIdx?_some_spec _ emptyRegion _ _ h
  have h2 := hs.2
  simp only [Bool.and_eq_true, beq_iff_eq] at h2
  exact ⟨hs.1, h2.1, h2.2⟩

/-- Sends to a region whose slot is occupied fail with -1 and change
nothing (the spin flag is taken and released within the call). -/
theorem shm_send_occupied (s : ShmState) (cid : Nat) (m : IpcMessage) (i : Nat)
    (hf : find_region_index s cid = some i)
    (hd : (s.regions.getD i emptyRegion).has_data = true) :
    shm_send_message s cid (some m) = (-1, s) := by
  unfold shm_send_message
  rw [hf]
  dsimp only []
  by_cases hp : check_region_permission (s.regions.getD i emptyRegion) m.sender_id 0x2 = true
  · rw [if_neg (not_not_intro hp), if_pos hd]
  · rw [if_pos hp]

theorem shm_create_inv (s : ShmState) (a b : Nat) (h : ShmInv s) :
    ShmInv (shm_create_channel s a b).2 := by
  obtain ⟨hlen, hdead, hcnt⟩ := h
  unfold shm_create_channel
  cases hfind : s.regions.find?
      (fun r => r.in_use && r.participants.contains a && r.participants.contains b) with
  | some r => exact ⟨hlen, hdead, hcnt⟩
  | none =>
    cases hidx : s.regions.findIdx? (fun r => !r.in_use) with
    | none => exact ⟨hlen, hdead, hcnt⟩
    | some i =>
      dsimp only []
      obtain ⟨hi, hpred⟩ := findIdx?_some_spec _ emptyRegion _ _ hidx
      have hiu : (s.regions.getD i emptyRegion).in_use = false := by simpa using hpred
      have hhd : (s.regions.getD i emptyRegion).has_data = false :=
        hdead i (hlen ▸ hi) hiu
      by_cases hpool : MAX_SHARED_REGIONS * SHARED_REGION_SIZE < s.pool_offset + SHARED_REGION_SIZE
      · rw [if_pos hpool]
        refine ⟨by simpa using hlen, ?_, ?_⟩
        · intro j hj hju
          by_cases hij : i = j
          · subst hij
            rw [getD_set_self _ _ _ _ hi] at hju ⊢
            exact hhd
          · rw [getD_set_ne _ _ _ _ _ hij] at hju ⊢
            exact hdead j hj hju
        · show s.total_messages_sent = (s.total_messages_received + _) % 2 ^ 32
          unfold dataRegionCount at hcnt ⊢
          rw [countP_set_getD _ _ _ _ hi]
          dsimp only []
          rw [hhd]
          simpa using hcnt
      · rw [if_neg hpool]
        refine ⟨by simpa using hlen, ?_, ?_⟩
        · intro j hj hju
          by_cases hij : i = j
          · subst hij
            rw [getD_set_self _ _ _ _ hi] at hju
            simp at hju
          · rw [getD_set_ne _ _ _ _ _ hij] at hju ⊢
            exact hdead j hj hju
        · show s.total_messages_sent = (s.total_messages_received + _) % 2 ^ 32
          unfold dataRegionCount at hcnt ⊢
          rw [countP_set_getD _ _ _ _ hi]
          dsimp only []
          rw [hhd]
          simpa using hcnt

theorem shm_send_inv (s : ShmState) (cid : Nat) (m : IpcMessage) (h : ShmInv s) :
    ShmInv (shm_send_message s cid (some m)).2 := by
  obtain ⟨hlen, hdead, hcnt⟩ := h
  unfold shm_send_message
  cases hf : find_region_index s cid with
  | none => exact ⟨hlen, hdead, hcnt⟩
  | some i =>
    dsimp only []
    obtain ⟨hi, hiu, -⟩ := find_region_spec s cid i hf
    by_cases hp : check_region_permission (s.regions.getD i emptyRegion) m.sender_id 0x2 = true
    · rw [if_neg (not_not_intro hp)]
      by_cases hd : (s.regions.getD i emptyRegion).has_data = true
      · rw [if_pos hd]; exact ⟨hlen, hdead, hcnt⟩
      · rw [if_neg hd]
        cases hmem : (s.regions.getD i emptyRegion).memory with
        | none => exact ⟨hlen, hdead, hcnt⟩
        | some mem =>
          refine ⟨by simpa using hlen, ?_, ?_⟩
          · intro j hj hju
            by_cases hij : i = j
            · subst hij
              rw [getD_set_self _ _ _ _ hi] at hju
              dsimp only [] at hju
              rw [hiu] at hju
              exact absurd hju (by simp)
            · rw [getD_set_ne _ _ _ _ _ hij] at hju ⊢
              exact hdead j hj hju
          · show (s.total_messages_sent + 1) % 2 ^ 32 = (s.total_messages_received + _) % 2 ^ 32
            unfold dataRegionCount at hcnt ⊢
            rw [countP_set_getD _ _ _ _ hi]
            dsimp only []
            rw [hcnt, Nat.mod_add_mod]
            have hd' : (s.regions.getD i emptyRegion).has_data = false := by
              simpa using hd
            rw [hd']
            simp only [if_false, if_true, Nat.sub_zero]
            congr 1
    · rw [if_pos hp]
      exact ⟨hlen, hdead, hcnt⟩

theorem shm_receive_inv (s : ShmState) (cid : Nat) (h : ShmInv s) :
    ShmInv (shm_receive_message s cid).2.2 := by
  obtain ⟨hlen, hdead, hcnt⟩ := h
  unfold shm_receive_message
  cases hf : find_region_index s cid with
  | none => exact ⟨hlen, hdead, hcnt⟩
  | some i =>
    dsimp only []
    obtain ⟨hi, hiu, -⟩ := find_region_spec s cid i hf
    by_cases hd : (s.regions.getD i emptyRegion).has_data = true
    · rw [if_neg (not_not_intro hd)]
      cases hmem : (s.regions.getD i emptyRegion).memory with
      | none => exact ⟨hlen, hdead, hcnt⟩
      | some mem =>
        dsimp only []
        by_cases hv : mem.valid = false
        · rw [if_pos hv]; exact ⟨hlen, hdead, hcnt⟩
        · rw [if_neg hv]
          refine ⟨by simpa using hlen, ?_, ?_⟩
          · intro j hj hju
            by_cases hij : i = j
            · subst hij
              rw [getD_set_self _ _ _ _ hi] at hju
              dsimp only [] at hju
              rw [hiu] at hju
              exact absurd hju (by simp)
            · rw [getD_set_ne _ _ _ _ _ hij] at hju ⊢
              exact hdead j hj hju
          · show s.total_messages_sent = ((s.total_messages_received + 1) % 2 ^ 32 + _) % 2 ^ 32
            unfold dataRegionCount at hcnt ⊢
            rw [countP_set_getD _ _ _ _ hi]
            dsimp only []
            rw [hcnt, Nat.mod_add_mod]
            have hone : 0 < s.regions.countP (fun r => r.has_data) := by
              refine List.countP_pos_iff.mpr ⟨s.regions.getD i emptyRegion, ?_, hd⟩
              rw [List.getD_eq_getElem _ _ hi]
              exact List.getElem_mem hi
            rw [hd]
            norm_num
            congr 1
            omega
    · rw [if_pos hd]
      exact ⟨hlen, hdead, hcnt⟩

theorem shmInv_map_regions (s : ShmState) (F : SharedRegion → SharedRegion)
    (hin : ∀ x, (F x).in_use = x.in_use) (hhd : ∀ x, (F x).has_data = x.has_data)
    (h : ShmInv s) : ShmInv { s with regions := s.regions.map F } := by
  obtain ⟨hlen, hdead, hcnt⟩ := h
  refine ⟨by simpa using hlen, ?_, ?_⟩
  · intro j hj
    show ((s.regions.map F).getD j emptyRegion).in_use = false →
      ((s.regions.map F).getD j emptyRegion).has_data = false
    rw [List.getD_eq_getElem?_getD, List.getElem?_map]
    have hd := hdead j hj
    rw [List.getD_eq_getElem?_getD] at hd
    cases hx : s.regions[j]? with
    | none => intro _; rfl
    | some x =>
      rw [hx] at hd
      simp only [Option.map_some', Option.getD_some]
      rw [hin x, hhd x]
      simpa using hd
  · show s.total_messages_sent =
      (s.total_messages_received + (s.regions.map F).countP (fun r => r.has_data)) % 2 ^ 32
    rw [List.countP_map]
    have : s.regions.countP ((fun r => r.has_data) ∘ F) =
        s.regions.countP (fun r => r.has_data) :=
      List.countP_congr (fun x _ => by simp [Function.comp, hhd x])
    rw [this]
    exact hcnt

theorem shm_grant_inv (s : ShmState) (g e r : Nat) (h : ShmInv s) :
    ShmInv (shm_grant_capability s g e r) := by
  unfold shm_grant_capability
  exact shmInv_map_regions s _
    (fun x => by split <;> rfl)
    (fun x => by split <;> rfl) h

theorem shm_step_inv (s : ShmState) (op : ShmOp) (h : ShmInv s) : ShmInv (shm_step s op) := by
  cases op with
  | create a b => exact shm_create_inv s a b h
  | send c m => exact shm_send_inv s c m h
  | recv c => exact shm_receive_inv s c h
  | tryRecv c => exact shm_receive_inv s c h
  | grant g e r => exact shm_grant_inv s g e r h

theorem shmRunFrom_inv (ops : List ShmOp) : ∀ s : ShmState, ShmInv s → ShmInv (shmRunFrom s ops) := by
  induction ops with
  | nil => exact fun s h => h
  | cons op ops ih => exact fun s h => ih (shm_step s op) (shm_step_inv s op h)

/-- C5 (amended): the sent/received counters are transport-global, not
per-region.  What holds is: (a) a send_message to a region whose slot is
occupied (has_data set) fails with -1 and leaves the whole transport state
-- counters and slot included -- unchanged; and (b) in every state reachable
from the fresh transport by create_channel / send / receive / try_receive /
grant_capability (destroy_channel excluded, since destroying a region that
still holds a message orphans the message and breaks any counter
accounting), total_messages_sent = (total_messages_received + number of
regions whose slot holds a message) mod 2^32.  With a single active region
this specialises to the claimed sent == received + (1 if has_data else 0). -/
theorem c5_rendezvous_amended :
    (∀ (s : ShmState) (cid : Nat) (m : IpcMessage) (i : Nat),
        find_region_index s cid = some i →
        (s.regions.getD i emptyRegion).has_data = true →
        shm_send_message s cid (some m) = (-1, s)) ∧
    (∀ ops : List ShmOp, ShmInv (shmRun ops)) :=
  ⟨shm_send_occupied, fun ops => shmRunFrom_inv ops shm_state0 (by decide)⟩

/-- C5 (witness): the occupied-send half applied to the concrete one-region
state shmOne (region id 1 holds an undelivered message), and the invariant
half applied to the concrete four-operation session building shmTwo. -/
theorem c5_rendezvous_witness :
    (find_region_index shmOne 1 = some 0 ∧
      (shmOne.regions.getD 0 emptyRegion).has_data = true ∧
      shm_send_message shmOne 1 (some msgB) = (-1, shmOne)) ∧
    ShmInv (shmRun [.create 1 2, .create 3 4, .send 1 msgA, .send 2 msgB]) :=
  ⟨⟨by decide, by decide, c5_rendezvous_amended.1 shmOne 1 msgB 0 (by decide) (by decide)⟩,
    c5_rendezvous_amended.2 [.create 1 2, .create 3 4, .send 1 msgA, .send 2 msgB]⟩

end SHM

/-! ### C1 counterexample — aging is two orders of magnitude slower -/

namespace Priority

/-- C1 (counterexample): a process of priority 30 (age 0) alone in the ready
queues with nothing running.  The claim's bound is
(31 - 30) x AGING_INTERVAL = 100 ticks, but aging only increments the
process's age by one every 100 ticks and a promotion needs age >= 100, so
after every k <= 100 ticks the process still has priority 30, never 31. -/
theorem c1_aging_bound_counterexample :
    (MAX_PRIORITY - 30) * AGING_INTERVAL = 100 ∧
    ((List.range 101).all
      (fun k => !(pidHasPriority (tickIter k cstate).ready_queues 1 MAX_PRIORITY))) = true := by
  decide

end Priority

/-! ### C10 — priority_add_process normalisation -/

namespace Priority

/-- C10 (confirmed): add_process silently resets an out-of-range priority
(> 31) to the default 15, and unconditionally overwrites original_priority
with the resulting priority, age with 0, time_slice with 10 + 2 x priority,
remaining_slice with the fresh time slice, clears both flags, and appends
the descriptor to the ready queue of its (normalised) priority, leaving all
other queues unchanged.  The length hypothesis says only that all 32 queue
array entries exist, as they do in the C scheduler state. -/
theorem c10_add_process_normalises (s : SchedState) (proc : PProc)
    (hlen : MAX_PRIORITY < s.ready_queues.length) :
    let prio := if MAX_PRIORITY < proc.priority then DEFAULT_PRIORITY else proc.priority
    ∃ p' : PProc,
      (priority_add_process s proc).ready_queues.getD prio [] =
        s.ready_queues.getD prio [] ++ [p'] ∧
      p'.pid = proc.pid ∧
      p'.priority = prio ∧
      p'.original_priority = prio ∧
      p'.age = 0 ∧
      p'.time_slice = 10 + 2 * prio ∧
      p'.remaining_slice = p'.time_slice ∧
      p'.is_running = false ∧
      p'.is_blocked = false ∧
      (∀ r, r ≠ prio →
        (priority_add_process s proc).ready_queues.getD r [] = s.ready_queues.getD r []) := by
  intro prio
  have hpr : prio ≤ MAX_PRIORITY := by
    by_cases h : MAX_PRIORITY < proc.priority
    · simp only [prio, if_pos h]; decide
    · simp only [prio, if_neg h]; omega
  have hlt : prio < s.ready_queues.length := Nat.lt_of_le_of_lt hpr hlen
  refine ⟨{ proc with
      priority := prio, original_priority := prio, age := 0
      time_slice := calculate_time_slice prio
      remaining_slice := calculate_time_slice prio
      is_running := false, is_blocked := false }, ?_, rfl, rfl, rfl, rfl, ?_, rfl, rfl, rfl, ?_⟩
  · show (enqueue_process s.ready_queues prio _).getD prio [] = _
    unfold enqueue_process
    rw [getD_set_self _ _ _ _ hlt]
  · simp only [calculate_time_slice]; omega
  · intro r hr
    show (enqueue_process s.ready_queues prio _).getD r [] = _
    unfold enqueue_process
    rw [getD_set_ne _ _ _ _ _ (fun he => hr he.symm)]

/-- C10 (witness): the theorem applied to the concrete state cstate and a
descriptor with out-of-range priority 40, which is reset to 15: queue 15,
previously empty, now holds one descriptor. -/
theorem c10_add_process_witness :
    MAX_PRIORITY < cstate.ready_queues.length ∧
    (priority_add_process cstate { cproc with priority := 40 }).ready_queues.getD 15 [] ≠ [] := by
  have h := c10_add_process_normalises cstate { cproc with priority := 40 } (by decide)
  refine ⟨by decide, ?_⟩
  simp only at h
  norm_num [MAX_PRIORITY, DEFAULT_PRIORITY] at h ⊢
  obtain ⟨p', h1, -⟩ := h
  rw [h1]
  simp

end Priority


/-! ### C6: message-queue FIFO delivery -/

namespace MQ

theorem getD_replicate' {α : Type _} (n i : Nat) (a d : α) :
    (List.replicate n a).getD i d = if i < n then a else d := by
  simp [List.getD_eq_getElem?_getD, List.getElem?_replicate]
  split <;> simp

theorem mqInv_init : MqInv mq_init (fun _ => []) (fun _ => []) := by
  refine ⟨by simp [mq_init, MAX_CHANNELS], ?_, ?_, fun c _ => ⟨rfl, rfl⟩, fun c => ⟨[], rfl⟩⟩
  · intro i hi hu
    rw [show mq_init.channels = List.replicate MAX_CHANNELS emptyChannel from rfl] at hu
    rw [getD_replicate' _ _ _ _] at hu
    simp [hi, emptyChannel] at hu
  · intro i j hi hj hui huj
    rw [show mq_init.channels = List.replicate MAX_CHANNELS emptyChannel from rfl,
      getD_replicate' _ _ _ _] at hui
    simp [hi, emptyChannel] at hui

theorem alloc_entry_preserves (st : MqState) (idx : Nat) (s1 : MqState)
    (h : alloc_message_entry st = some (idx, s1)) :
    s1.channels = st.channels ∧ s1.next_channel_id = st.next_channel_id := by
  unfold alloc_message_entry at h
  cases hfind : (List.range POOL_SIZE).find?
      (fun i => !(st.entry_used.getD ((st.next_entry_index + i) % POOL_SIZE) true)) with
  | none => rw [hfind] at h; exact absurd h (by simp)
  | some i =>
    rw [hfind] at h
    simp only [Option.some.injEq, Prod.mk.injEq] at h
    rw [← h.2]
    exact ⟨rfl, rfl⟩

theorem find_channel_spec (st : MqState) (c i : Nat) (h : find_channel_index st c = some i) :
    i < st.channels.length ∧ (st.channels.getD i emptyChannel).in_use = true ∧
      (st.channels.getD i emptyChannel).channel_id = c := by
  have hs := findIdx?_some_spec _ emptyChannel _ _ h
  have h2 := hs.2
  simp only [Bool.and_eq_true, beq_iff_eq] at h2
  exact ⟨hs.1, h2.1, h2.2⟩

theorem mq_tick_inv (st : MqState) (sl rl : Nat → List IpcMessage) (h : MqInv st sl rl) :
    MqInv (mq_tick st) sl rl := h

theorem mq_uniq_set (l : List MessageChannel) (i : Nat) (ch' : MessageChannel)
    (h3 : ∀ i' j', i' < MAX_CHANNELS → j' < MAX_CHANNELS →
      (l.getD i' emptyChannel).in_use = true → (l.getD j' emptyChannel).in_use = true →
      (l.getD i' emptyChannel).channel_id = (l.getD j' emptyChannel).channel_id → i' = j')
    (himpl : ch'.in_use = true →
      (l.getD i emptyChannel).in_use = true ∧
        ch'.channel_id = (l.getD i emptyChannel).channel_id) :
    ∀ i' j', i' < MAX_CHANNELS → j' < MAX_CHANNELS →
      ((l.set i ch').getD i' emptyChannel).in_use = true →
      ((l.set i ch').getD j' emptyChannel).in_use = true →
      ((l.set i ch').getD i' emptyChannel).channel_id =
        ((l.set i ch').getD j' emptyChannel).channel_id →
      i' = j' := by
  intro i' j' hi' hj' hu1 hu2 heq
  by_cases hil : i < l.length
  · by_cases e1 : i = i' <;> by_cases e2 : i = j'
    · omega
    · subst e1
      rw [getD_set_self _ _ _ _ hil] at hu1 heq
      rw [getD_set_ne _ _ _ _ _ e2] at hu2 heq
      obtain ⟨ho, hid⟩ := himpl hu1
      exact h3 i j' hi' hj' ho hu2 (hid.symm.trans heq)
    · subst e2
      rw [getD_set_self _ _ _ _ hil] at hu2 heq
      rw [getD_set_ne _ _ _ _ _ e1] at hu1 heq
      obtain ⟨ho, hid⟩ := himpl hu2
      exact h3 i' i hi' hj' hu1 ho (heq.trans hid)
    · rw [getD_set_ne _ _ _ _ _ e1] at hu1 heq
      rw [getD_set_ne _ _ _ _ _ e2] at hu2 heq
      exact h3 i' j' hi' hj' hu1 hu2 heq
  · rw [List.set_eq_of_length_le (by omega)] at hu1 hu2 heq
    exact h3 i' j' hi' hj' hu1 hu2 heq

theorem mq_create_inv (st : MqState) (a b : Nat) (sl rl : Nat → List IpcMessage)
    (h : MqInv st sl rl) (hnw : st.next_channel_id + 1 < 2 ^ 32) :
    MqInv (mq_create_channel st a b).2 sl rl := by
  obtain ⟨h1, h2, h3, h4, h5⟩ := h
  unfold mq_create_channel
  cases hfind : st.channels.find?
      (fun ch => ch.in_use && ch.sender_id == a && ch.receiver_id == b) with
  | some ch => exact ⟨h1, h2, h3, h4, h5⟩
  | none =>
    cases hidx : st.channels.findIdx? (fun ch => !ch.in_use) with
    | none => exact ⟨h1, h2, h3, h4, h5⟩
    | some i =>
      dsimp only []
      obtain ⟨hi, hpred⟩ := findIdx?_some_spec _ emptyChannel _ _ hidx
      have hiu : (st.channels.getD i emptyChannel).in_use = false := by simpa using hpred
      have hmod : (st.next_channel_id + 1) % 2 ^ 32 = st.next_channel_id + 1 :=
        Nat.mod_eq_of_lt hnw
      refine ⟨by simpa using h1, ?_, ?_, ?_, h5⟩
      · intro j hj
        by_cases hij : i = j
        · subst hij
          rw [getD_set_self _ _ _ _ hi]
          intro _
          have he := h4 st.next_channel_id (Nat.le_refl _)
          refine ⟨?_, ?_⟩
          · show st.next_channel_id < (st.next_channel_id + 1) % 2 ^ 32
            rw [hmod]; omega
          · show sl st.next_channel_id = rl st.next_channel_id ++ List.map PoolEntry.message []
            simp [he.1, he.2]
        · rw [getD_set_ne _ _ _ _ _ hij]
          intro hu
          obtain ⟨hlt, heq⟩ := h2 j hj hu
          refine ⟨?_, heq⟩
          show (st.channels.getD j emptyChannel).channel_id < (st.next_channel_id + 1) % 2 ^ 32
          rw [hmod]; omega
      · intro i' j' hi' hj' hu1 hu2 heq
        by_cases e1 : i = i' <;> by_cases e2 : i = j'
        · omega
        · subst e1
          rw [getD_set_self _ _ _ _ hi] at heq
          rw [getD_set_ne _ _ _ _ _ e2] at hu2 heq
          obtain ⟨hlt, -⟩ := h2 j' hj' hu2
          have heq' : st.next_channel_id =
              (st.channels.getD j' emptyChannel).channel_id := heq
          omega
        · subst e2
          rw [getD_set_self _ _ _ _ hi] at heq
          rw [getD_set_ne _ _ _ _ _ e1] at hu1 heq
          obtain ⟨hlt, -⟩ := h2 i' hi' hu1
          have heq' : (st.channels.getD i' emptyChannel).channel_id =
              st.next_channel_id := heq
          omega
        · rw [getD_set_ne _ _ _ _ _ e1] at hu1 heq
          rw [getD_set_ne _ _ _ _ _ e2] at hu2 heq
          exact h3 i' j' hi' hj' hu1 hu2 heq
      · intro c hc
        have hc' : (st.next_channel_id + 1) % 2 ^ 32 ≤ c := hc
        rw [hmod] at hc'
        exact h4 c (by omega)

theorem free_foldl_preserves (q : List PoolEntry) : ∀ st : MqState,
    ((q.foldl (fun t e => free_message_entry t e.idx) st).channels = st.channels ∧
      (q.foldl (fun t e => free_message_entry t e.idx) st).next_channel_id =
        st.next_channel_id) := by
  induction q with
  | nil => exact fun st => ⟨rfl, rfl⟩
  | cons e q ih =>
    intro st
    have hstep : (free_message_entry st e.idx).channels = st.channels ∧
        (free_message_entry st e.idx).next_channel_id = st.next_channel_id := by
      unfold free_message_entry
      split <;> exact ⟨rfl, rfl⟩
    have := ih (free_message_entry st e.idx)
    exact ⟨this.1.trans hstep.1, this.2.trans hstep.2⟩

theorem mq_destroy_inv (st : MqState) (c : Nat) (sl rl : Nat → List IpcMessage)
    (h : MqInv st sl rl) : MqInv (mq_destroy_channel st c) sl rl := by
  obtain ⟨h1, h2, h3, h4, h5⟩ := h
  unfold mq_destroy_channel
  cases hf : find_channel_index st c with
  | none => exact ⟨h1, h2, h3, h4, h5⟩
  | some i =>
    dsimp only []
    obtain ⟨hi, hiu, hid⟩ := find_channel_spec st c i hf
    have hch := free_foldl_preserves (st.channels.getD i emptyChannel).queue st
    refine ⟨by rw [hch.1]; simpa using h1, ?_, ?_, ?_, h5⟩
    · intro j hj
      rw [hch.1]
      by_cases hij : i = j
      · subst hij
        rw [getD_set_self _ _ _ _ hi]
        intro hu
        simp at hu
      · rw [getD_set_ne _ _ _ _ _ hij]
        intro hu
        have := h2 j hj hu
        rw [hch.2]
        exact this
    · rw [hch.1]
      refine mq_uniq_set st.channels i _ h3 ?_
      intro habs
      simp at habs
    · intro c' hc'
      rw [hch.2] at hc'
      exact h4 c' hc'

theorem free_entry_preserves (s : MqState) (idx : Nat) :
    (free_message_entry s idx).channels = s.channels ∧
      (free_message_entry s idx).next_channel_id = s.next_channel_id := by
  unfold free_message_entry
  split <;> exact ⟨rfl, rfl⟩

theorem free_entry_mqInv (s : MqState) (k : Nat) (sl rl : Nat → List IpcMessage)
    (h : MqInv s sl rl) : MqInv (free_message_entry s k) sl rl := by
  unfold free_message_entry
  split
  · exact h
  · exact h

theorem mq_send_inv (st : MqState) (c : Nat) (m : IpcMessage) (sl rl : Nat → List IpcMessage)
    (h : MqInv st sl rl) :
    ((mq_send_message st c (some m)).1 = 0 →
      MqInv (mq_send_message st c (some m)).2
        (fun x => if x = c then sl x ++ [m] else sl x) rl) ∧
    ((mq_send_message st c (some m)).1 ≠ 0 →
      MqInv (mq_send_message st c (some m)).2 sl rl) := by
  obtain ⟨h1, h2, h3, h4, h5⟩ := h
  unfold mq_send_message
  cases hf : find_channel_index st c with
  | none => exact ⟨fun habs => absurd (show (-1 : Int) = 0 from habs) (by decide), fun _ => ⟨h1, h2, h3, h4, h5⟩⟩
  | some i =>
    dsimp only []
    obtain ⟨hi, hiu, hid⟩ := find_channel_spec st c i hf
    have hi32 : i < MAX_CHANNELS := h1 ▸ hi
    by_cases hfull : (st.channels.getD i emptyChannel).max_queue_size ≤
        (st.channels.getD i emptyChannel).queue.length
    · rw [if_pos hfull]
      refine ⟨fun habs => absurd (show (-1 : Int) = 0 from habs) (by decide), fun _ => ⟨by simpa using h1, ?_, ?_, h4, h5⟩⟩
      · intro j hj
        by_cases hij : i = j
        · subst hij
          rw [getD_set_self _ _ _ _ hi]
          intro _
          have := h2 i hi32 hiu
          exact this
        · rw [getD_set_ne _ _ _ _ _ hij]
          exact h2 j hj
      · refine mq_uniq_set st.channels i _ h3 ?_
        intro hu
        exact ⟨hu, rfl⟩
    · rw [if_neg hfull]
      cases halloc : alloc_message_entry st with
      | none =>
        refine ⟨fun habs => absurd (show (-1 : Int) = 0 from habs) (by decide), fun _ => ⟨by simpa using h1, ?_, ?_, h4, h5⟩⟩
        · intro j hj
          by_cases hij : i = j
          · subst hij
            rw [getD_set_self _ _ _ _ hi]
            intro _
            exact h2 i hi32 hiu
          · rw [getD_set_ne _ _ _ _ _ hij]
            exact h2 j hj
        · refine mq_uniq_set st.channels i _ h3 ?_
          intro hu
          exact ⟨hu, rfl⟩
      | some pair =>
        obtain ⟨idx, s1⟩ := pair
        obtain ⟨hach, hanext⟩ := alloc_entry_preserves st idx s1 halloc
        dsimp only []
        refine ⟨fun _ => ?_, fun habs => absurd rfl habs⟩
        rw [hach]
        refine ⟨by simpa using h1, ?_, ?_, ?_, ?_⟩
        · intro j hj
          by_cases hij : i = j
          · subst hij
            rw [getD_set_self _ _ _ _ hi]
            intro _
            obtain ⟨hlt, heqn⟩ := h2 i hi32 hiu
            refine ⟨by rw [hanext]; exact hid ▸ hlt, ?_⟩
            show (if (st.channels.getD i emptyChannel).channel_id = c then
                sl (st.channels.getD i emptyChannel).channel_id ++ [m]
              else sl (st.channels.getD i emptyChannel).channel_id) = _
            rw [if_pos hid]
            rw [heqn]
            simp
          · rw [getD_set_ne _ _ _ _ _ hij]
            intro hu
            obtain ⟨hlt, heqn⟩ := h2 j hj hu
            have hne : (st.channels.getD j emptyChannel).channel_id ≠ c := by
              intro habs
              exact hij (h3 i j hi32 hj hiu hu (hid.trans habs.symm))
            refine ⟨by rw [hanext]; exact hlt, ?_⟩
            show (if (st.channels.getD j emptyChannel).channel_id = c then _ else
              sl (st.channels.getD j emptyChannel).channel_id) = _
            rw [if_neg hne]
            exact heqn
        · refine mq_uniq_set st.channels i _ h3 ?_
          intro hu
          exact ⟨hu, rfl⟩
        · intro c' hc'
          have hc'' : st.next_channel_id ≤ c' := by
            have : s1.next_channel_id ≤ c' := hc'
            rw [hanext] at this
            exact this
          have hcc : c' ≠ c := by
            have := h2 i hi32 hiu
            rw [hid] at this
            omega
          refine ⟨?_, (h4 c' hc'').2⟩
          show (if c' = c then sl c' ++ [m] else sl c') = []
          rw [if_neg hcc]
          exact (h4 c' hc'').1
        · intro c'
          by_cases hcc : c' = c
          · subst hcc
            obtain ⟨t, ht⟩ := h5 c'
            refine ⟨t ++ [m], ?_⟩
            show (if c' = c' then sl c' ++ [m] else sl c') = rl c' ++ (t ++ [m])
            rw [if_pos rfl, ht, List.append_assoc]
          · obtain ⟨t, ht⟩ := h5 c'
            refine ⟨t, ?_⟩
            show (if c' = c then sl c' ++ [m] else sl c') = rl c' ++ t
            rw [if_neg hcc]
            exact ht

theorem mq_receive_inv (st : MqState) (c : Nat) (sl rl : Nat → List IpcMessage)
    (h : MqInv st sl rl) :
    ((mq_receive_message st c).2.1 = none → MqInv (mq_receive_message st c).2.2 sl rl) ∧
    (∀ m, (mq_receive_message st c).2.1 = some m →
      MqInv (mq_receive_message st c).2.2 sl (fun x => if x = c then rl x ++ [m] else rl x)) := by
  obtain ⟨h1, h2, h3, h4, h5⟩ := h
  unfold mq_receive_message
  cases hf : find_channel_index st c with
  | none => exact ⟨fun _ => ⟨h1, h2, h3, h4, h5⟩, fun m habs => by cases habs⟩
  | some i =>
    dsimp only []
    obtain ⟨hi, hiu, hid⟩ := find_channel_spec st c i hf
    have hi32 : i < MAX_CHANNELS := h1 ▸ hi
    cases hq : (st.channels.getD i emptyChannel).queue with
    | nil => exact ⟨fun _ => ⟨h1, h2, h3, h4, h5⟩, fun m habs => by cases habs⟩
    | cons e rest =>
      dsimp only []
      refine ⟨(fun habs => by cases habs), ?_⟩
      intro m hm
      have hme : m = e.message := by
        cases hm
        rfl
      subst hme
      refine free_entry_mqInv _ _ _ _ ?_
      refine ⟨by simpa using h1, ?_, ?_, ?_, ?_⟩
      · intro j hj
        dsimp only []
        by_cases hij : i = j
        · subst hij
          rw [getD_set_self _ _ _ _ hi]
          intro _
          obtain ⟨hlt, heqn⟩ := h2 i hi32 hiu
          refine ⟨hlt, ?_⟩
          show sl (st.channels.getD i emptyChannel).channel_id =
            (if (st.channels.getD i emptyChannel).channel_id = c then
              rl (st.channels.getD i emptyChannel).channel_id ++ [e.message]
            else rl (st.channels.getD i emptyChannel).channel_id) ++ _
          rw [if_pos hid, heqn, hq]
          simp
        · rw [getD_set_ne _ _ _ _ _ hij]
          intro hu
          obtain ⟨hlt, heqn⟩ := h2 j hj hu
          have hne : (st.channels.getD j emptyChannel).channel_id ≠ c := by
            intro habs
            exact hij (h3 i j hi32 hj hiu hu (hid.trans habs.symm))
          refine ⟨hlt, ?_⟩
          show sl (st.channels.getD j emptyChannel).channel_id =
            (if (st.channels.getD j emptyChannel).channel_id = c then _
            else rl (st.channels.getD j emptyChannel).channel_id) ++ _
          rw [if_neg hne]
          exact heqn
      · refine mq_uniq_set st.channels i _ h3 ?_
        intro hu
        exact ⟨hu, rfl⟩
      · intro c' hc'
        have hc'' : st.next_channel_id ≤ c' := hc'
        have hcc : c' ≠ c := by
          have := h2 i hi32 hiu
          rw [hid] at this
          omega
        refine ⟨(h4 c' hc'').1, ?_⟩
        show (if c' = c then rl c' ++ [e.message] else rl c') = []
        rw [if_neg hcc]
        exact (h4 c' hc'').2
      · intro c'
        by_cases hcc : c' = c
        · subst hcc
          obtain ⟨hlt, heqn⟩ := h2 i hi32 hiu
          rw [hid] at heqn
          rw [hq] at heqn
          refine ⟨rest.map PoolEntry.message, ?_⟩
          show sl c' = (if c' = c' then rl c' ++ [e.message] else rl c') ++ rest.map PoolEntry.message
          rw [if_pos rfl, heqn]
          simp
        · obtain ⟨t, ht⟩ := h5 c'
          refine ⟨t, ?_⟩
          show sl c' = (if c' = c then _ else rl c') ++ t
          rw [if_neg hcc]
          exact ht

theorem step_next_le (s : MqState) (op : MqOp) (hnw : s.next_channel_id + 1 < 2 ^ 32) :
    (mq_step_ev s op).1.next_channel_id ≤ s.next_channel_id + 1 := by
  cases op with
  | create a b =>
    show (mq_create_channel s a b).2.next_channel_id ≤ s.next_channel_id + 1
    unfold mq_create_channel
    cases hfind : s.channels.find?
        (fun ch => ch.in_use && ch.sender_id == a && ch.receiver_id == b) with
    | some ch => exact Nat.le_succ _
    | none =>
      dsimp only []
      cases hidx : s.channels.findIdx? (fun ch => !ch.in_use) with
      | none => exact Nat.le_succ _
      | some i =>
        dsimp only []
        show (s.next_channel_id + 1) % 2 ^ 32 ≤ s.next_channel_id + 1
        exact Nat.le_of_eq (Nat.mod_eq_of_lt hnw)
  | destroy c =>
    show (mq_destroy_channel s c).next_channel_id ≤ s.next_channel_id + 1
    unfold mq_destroy_channel
    cases hf : find_channel_index s c with
    | none => exact Nat.le_succ _
    | some i =>
      dsimp only []
      show ((s.channels.getD i emptyChannel).queue.foldl
          (fun t e => free_message_entry t e.idx) s).next_channel_id ≤ s.next_channel_id + 1
      rw [(free_foldl_preserves (s.channels.getD i emptyChannel).queue s).2]
      exact Nat.le_succ _
  | send c m =>
    show (mq_send_message s c (some m)).2.next_channel_id ≤ s.next_channel_id + 1
    unfold mq_send_message
    dsimp only []
    cases hf : find_channel_index s c with
    | none => exact Nat.le_succ _
    | some i =>
      dsimp only []
      by_cases hfull : (s.channels.getD i emptyChannel).max_queue_size ≤
          (s.channels.getD i emptyChannel).queue.length
      · rw [if_pos hfull]
        exact Nat.le_succ _
      · rw [if_neg hfull]
        cases ha : alloc_message_entry s with
        | none => exact Nat.le_succ _
        | some p =>
          obtain ⟨idx, s1⟩ := p
          dsimp only []
          show s1.next_channel_id ≤ s.next_channel_id + 1
          rw [(alloc_entry_preserves s idx s1 ha).2]
          exact Nat.le_succ _
  | recv c =>
    show (mq_receive_message s c).2.2.next_channel_id ≤ s.next_channel_id + 1
    unfold mq_receive_message
    cases hf : find_channel_index s c with
    | none => exact Nat.le_succ _
    | some i =>
      dsimp only []
      cases hq : (s.channels.getD i emptyChannel).queue with
      | nil => exact Nat.le_succ _
      | cons e rest =>
        dsimp only []
        rw [(free_entry_preserves _ e.idx).2]
        exact Nat.le_succ _
  | tryRecv c =>
    show (mq_receive_message s c).2.2.next_channel_id ≤ s.next_channel_id + 1
    unfold mq_receive_message
    cases hf : find_channel_index s c with
    | none => exact Nat.le_succ _
    | some i =>
      dsimp only []
      cases hq : (s.channels.getD i emptyChannel).queue with
      | nil => exact Nat.le_succ _
      | cons e rest =>
        dsimp only []
        rw [(free_entry_preserves _ e.idx).2]
        exact Nat.le_succ _
  | tick => exact Nat.le_succ _

theorem runLogs_inv (ops : List MqOp) : ∀ (s : MqState) (sl rl : Nat → List IpcMessage),
    MqInv s sl rl → s.next_channel_id + ops.length < 2 ^ 32 →
    MqInv (runLogs s sl rl ops).1 (runLogs s sl rl ops).2.1 (runLogs s sl rl ops).2.2 := by
  induction ops with
  | nil => exact fun s sl rl h _ => h
  | cons op ops ih =>
    intro s sl rl h hb
    have hb1 : s.next_channel_id + 1 < 2 ^ 32 := by
      simp only [List.length_cons] at hb
      omega
    have hb' : ∀ t : MqState, t.next_channel_id ≤ s.next_channel_id + 1 →
        t.next_channel_id + ops.length < 2 ^ 32 := by
      intro t ht
      simp only [List.length_cons] at hb
      omega
    cases op with
    | create a b =>
      exact ih _ _ _ (mq_create_inv s a b sl rl h hb1)
        (hb' _ (step_next_le s (.create a b) hb1))
    | destroy c =>
      exact ih _ _ _ (mq_destroy_inv s c sl rl h)
        (hb' _ (step_next_le s (.destroy c) hb1))
    | send c m =>
      have hle : (mq_send_message s c (some m)).2.next_channel_id ≤ s.next_channel_id + 1 :=
        step_next_le s (.send c m) hb1
      unfold runLogs
      dsimp only [mq_step_ev]
      by_cases h0 : (mq_send_message s c (some m)).1 = 0
      · rw [if_pos h0]
        dsimp only []
        exact ih _ _ _ ((mq_send_inv s c m sl rl h).1 h0) (hb' _ hle)
      · rw [if_neg h0]
        dsimp only []
        exact ih _ _ _ ((mq_send_inv s c m sl rl h).2 h0) (hb' _ hle)
    | recv c =>
      have hle : (mq_receive_message s c).2.2.next_channel_id ≤ s.next_channel_id + 1 :=
        step_next_le s (.recv c) hb1
      unfold runLogs
      dsimp only [mq_step_ev]
      cases hr : (mq_receive_message s c).2.1 with
      | none =>
        dsimp only [Option.map]
        exact ih _ _ _ ((mq_receive_inv s c sl rl h).1 hr) (hb' _ hle)
      | some m =>
        dsimp only [Option.map]
        exact ih _ _ _ ((mq_receive_inv s c sl rl h).2 m hr) (hb' _ hle)
    | tryRecv c =>
      have hle : (mq_receive_message s c).2.2.next_channel_id ≤ s.next_channel_id + 1 :=
        step_next_le s (.tryRecv c) hb1
      unfold runLogs
      dsimp only [mq_step_ev]
      cases hr : (mq_try_receive s c).2.1 with
      | none =>
        dsimp only [Option.map]
        exact ih _ _ _ ((mq_receive_inv s c sl rl h).1 hr) (hb' _ hle)
      | some m =>
        dsimp only [Option.map]
        exact ih _ _ _ ((mq_receive_inv s c sl rl h).2 m hr) (hb' _ hle)
    | tick =>
      exact ih _ _ _ (mq_tick_inv s sl rl h) (hb' _ (step_next_le s .tick hb1))

/-- **C6** (message_queue_ipc.c): over any session of create/destroy/send/
receive/tick operations after init (short enough that channel ids cannot wrap
a uint32), on every channel id the sequence of messages delivered by receives
is a prefix of the sequence of messages accepted by sends: FIFO delivery,
nothing reordered, duplicated or invented. -/
theorem c6_fifo (ops : List MqOp) (c : Nat) (h : ops.length < 2 ^ 32 - 1) :
    ((mqRun ops).2.1 c).take ((mqRun ops).2.2 c).length = (mqRun ops).2.2 c := by
  have hinv := runLogs_inv ops mq_init (fun _ => []) (fun _ => []) mqInv_init
    (by show 1 + ops.length < 2 ^ 32; omega)
  obtain ⟨t, ht⟩ := hinv.2.2.2.2 c
  show ((runLogs mq_init (fun _ => []) (fun _ => []) ops).2.1 c).take
      ((runLogs mq_init (fun _ => []) (fun _ => []) ops).2.2 c).length =
    (runLogs mq_init (fun _ => []) (fun _ => []) ops).2.2 c
  rw [ht]
  exact List.take_left _ _

theorem c6_fifo_witness :
    mqWitnessOps.length < 2 ^ 32 - 1 ∧
      ((mqRun mqWitnessOps).2.1 1).take ((mqRun mqWitnessOps).2.2 1).length =
        (mqRun mqWitnessOps).2.2 1 :=
  ⟨by decide, c6_fifo mqWitnessOps 1 (by decide)⟩

end MQ


/-! ### C3: buddy-allocator conservation -/

namespace Buddy

theorem sumAux_succ (f : Nat → Nat) (n : Nat) :
    (List.range (n + 1)).foldl (fun a k => a + f k) 0 =
      (List.range n).foldl (fun a k => a + f k) 0 + f n := by
  rw [List.range_succ, List.foldl_append]
  rfl

theorem sumAux_congr (f g : Nat → Nat) (n : Nat) (h : ∀ k, k < n → f k = g k) :
    (List.range n).foldl (fun a k => a + f k) 0 =
      (List.range n).foldl (fun a k => a + g k) 0 := by
  induction n with
  | zero => rfl
  | succ n ih =>
    rw [sumAux_succ, sumAux_succ, ih (fun k hk => h k (Nat.lt_succ_of_lt hk)),
      h n (Nat.lt_succ_self n)]

theorem sumAux_update (f g : Nat → Nat) (n j d : Nat) (hj : j < n)
    (hne : ∀ k, k < n → k ≠ j → g k = f k) (hd : g j = f j + d) :
    (List.range n).foldl (fun a k => a + g k) 0 =
      (List.range n).foldl (fun a k => a + f k) 0 + d := by
  induction n with
  | zero => exact absurd hj (Nat.not_lt_zero j)
  | succ n ih =>
    rw [sumAux_succ, sumAux_succ]
    by_cases hjn : j = n
    · subst hjn
      rw [sumAux_congr g f j (fun k hk => hne k (Nat.lt_succ_of_lt hk) (Nat.ne_of_lt hk)), hd]
      omega
    · have hj' : j < n := Nat.lt_of_le_of_ne (Nat.lt_succ_iff.mp hj) hjn
      rw [ih hj' (fun k hk hkj => hne k (Nat.lt_succ_of_lt hk) hkj),
        hne n (Nat.lt_succ_self n) (fun h => hjn h.symm)]
      omega

theorem sumFree_add (s : BuddyState) (b k0 : Nat) (hk : k0 ≤ MAX_ORDER) :
    sumFreePages (add_to_free_list s b k0) = sumFreePages s + 2 ^ k0 := by
  show (List.range (MAX_ORDER + 1)).foldl
      (fun a k => a + ((if k = k0 then b :: s.free_lists k0 else s.free_lists k)).length * 2 ^ k) 0 =
    (List.range (MAX_ORDER + 1)).foldl (fun a k => a + (s.free_lists k).length * 2 ^ k) 0 + 2 ^ k0
  refine sumAux_update (fun k => (s.free_lists k).length * 2 ^ k)
    (fun k => ((if k = k0 then b :: s.free_lists k0 else s.free_lists k)).length * 2 ^ k)
    (MAX_ORDER + 1) k0 (2 ^ k0) (Nat.lt_succ_of_le hk) ?_ ?_
  · intro k _ hkj
    dsimp only []
    rw [if_neg hkj]
  · dsimp only []
    rw [if_pos rfl]
    show (s.free_lists k0).length.succ * 2 ^ k0 = (s.free_lists k0).length * 2 ^ k0 + 2 ^ k0
    rw [Nat.succ_mul]

theorem sumFree_remove (s : BuddyState) (b k0 : Nat) (hk : k0 ≤ MAX_ORDER)
    (hmem : b ∈ s.free_lists k0) :
    sumFreePages (remove_from_free_list s b k0) + 2 ^ k0 = sumFreePages s := by
  have hlen : (s.free_lists k0).length = ((s.free_lists k0).erase b).length + 1 := by
    rw [List.length_erase_of_mem hmem]
    have : 0 < (s.free_lists k0).length := List.length_pos.mpr (List.ne_nil_of_mem hmem)
    omega
  have : sumFreePages s = sumFreePages (remove_from_free_list s b k0) + 2 ^ k0 := by
    show (List.range (MAX_ORDER + 1)).foldl (fun a k => a + (s.free_lists k).length * 2 ^ k) 0 =
      (List.range (MAX_ORDER + 1)).foldl
        (fun a k => a + ((if k = k0 then (s.free_lists k0).erase b else s.free_lists k)).length * 2 ^ k) 0
        + 2 ^ k0
    refine sumAux_update
      (fun k => ((if k = k0 then (s.free_lists k0).erase b else s.free_lists k)).length * 2 ^ k)
      (fun k => (s.free_lists k).length * 2 ^ k)
      (MAX_ORDER + 1) k0 (2 ^ k0) (Nat.lt_succ_of_le hk) ?_ ?_
    · intro k _ hkj
      dsimp only []
      rw [if_neg hkj]
    · dsimp only []
      rw [if_pos rfl, hlen, Nat.succ_mul]
  omega

theorem max_order_le : ∀ fuel m r, m ≤ MAX_ORDER → max_order_loop fuel m r ≤ MAX_ORDER := by
  intro fuel
  induction fuel with
  | zero => exact fun m r hm => hm
  | succ fuel ih =>
    intro m r hm
    unfold max_order_loop
    split
    · exact ih (m + 1) r (by omega)
    · exact hm

theorem max_order_pow_le : ∀ fuel m r, 2 ^ m ≤ r → 2 ^ max_order_loop fuel m r ≤ r := by
  intro fuel
  induction fuel with
  | zero => exact fun m r hm => hm
  | succ fuel ih =>
    intro m r hm
    unfold max_order_loop
    split
    · next h =>
      refine ih (m + 1) r ?_
      have := h.1
      rwa [Nat.one_shiftLeft] at this
    · exact hm

theorem carve_pres : ∀ fuel s c,
    (carve_loop fuel s c).total_pages = s.total_pages ∧
      (carve_loop fuel s c).allocated_pages = s.allocated_pages := by
  intro fuel
  induction fuel with
  | zero => exact fun s c => ⟨rfl, rfl⟩
  | succ fuel ih =>
    intro s c
    unfold carve_loop
    split
    · exact ih _ _
    · exact ⟨rfl, rfl⟩

theorem carve_sum : ∀ fuel s c, c ≤ s.total_pages → s.total_pages - c ≤ fuel →
    sumFreePages (carve_loop fuel s c) + c = sumFreePages s + s.total_pages := by
  intro fuel
  induction fuel with
  | zero =>
    intro s c hc hf
    have : c = s.total_pages := by omega
    subst this
    rfl
  | succ fuel ih =>
    intro s c hc hf
    unfold carve_loop
    split
    · next hlt =>
      dsimp only []
      have hm1 : max_order_loop (MAX_ORDER + 1) 0 (s.total_pages - c) ≤ MAX_ORDER :=
        max_order_le _ 0 _ (Nat.zero_le _)
      have hm2 : 2 ^ max_order_loop (MAX_ORDER + 1) 0 (s.total_pages - c) ≤ s.total_pages - c :=
        max_order_pow_le _ 0 _ (by omega)
      have hpow : 0 < 2 ^ max_order_loop (MAX_ORDER + 1) 0 (s.total_pages - c) :=
        Nat.pos_pow_of_pos _ (by omega)
      have hshift : (1 <<< max_order_loop (MAX_ORDER + 1) 0 (s.total_pages - c)) =
          2 ^ max_order_loop (MAX_ORDER + 1) 0 (s.total_pages - c) := Nat.one_shiftLeft _
      have hadd := sumFree_add s c (max_order_loop (MAX_ORDER + 1) 0 (s.total_pages - c)) hm1
      have htot : (add_to_free_list s c
          (max_order_loop (MAX_ORDER + 1) 0 (s.total_pages - c))).total_pages = s.total_pages := rfl
      have hrec := ih (add_to_free_list s c (max_order_loop (MAX_ORDER + 1) 0 (s.total_pages - c)))
        (c + (1 <<< max_order_loop (MAX_ORDER + 1) 0 (s.total_pages - c)))
        (by rw [htot, hshift]; omega)
        (by rw [htot, hshift]; omega)
      rw [htot, hadd, hshift] at hrec
      rw [hshift]
      omega
    · next hge =>
      have : c = s.total_pages := by omega
      subst this
      rfl

theorem foldl_keep (l : List Nat) : ∀ a : Nat, l.foldl (fun b (_ : Nat) => b) a = a := by
  induction l with
  | nil => intro a; rfl
  | cons x l ih => intro a; exact ih a

theorem buddy_init_conservation (start_addr end_addr : Nat) :
    sumFreePages (buddy_init start_addr end_addr) +
        (buddy_init start_addr end_addr).allocated_pages =
      usable_pages_of (buddy_init start_addr end_addr).total_pages ∧
    (buddy_init start_addr end_addr).allocated_pages = 0 := by
  set t := (end_addr - start_addr) / PAGE_SIZE with ht
  have hmeta : metadata_pages_of t ≤ t := by
    unfold metadata_pages_of
    have h1 : t * SIZEOF_BUDDY_BLOCK + PAGE_SIZE - 1 < (t + 1) * PAGE_SIZE := by
      show t * 12 + 4096 - 1 < (t + 1) * 4096
      omega
    have h2 := (Nat.div_lt_iff_lt_mul (show 0 < PAGE_SIZE by norm_num [PAGE_SIZE])).mpr h1
    omega
  have he : buddy_init start_addr end_addr =
      carve_loop t ⟨start_addr, end_addr - start_addr, t, fun _ => [], fun _ => ⟨false, 0⟩, 0, 0⟩
        (metadata_pages_of t) := rfl
  have key := carve_sum t
    ⟨start_addr, end_addr - start_addr, t, fun _ => [], fun _ => ⟨false, 0⟩, 0, 0⟩
    (metadata_pages_of t) (by show metadata_pages_of t ≤ t; exact hmeta)
    (by show t - metadata_pages_of t ≤ t; omega)
  have hcp := carve_pres t
    ⟨start_addr, end_addr - start_addr, t, fun _ => [], fun _ => ⟨false, 0⟩, 0, 0⟩
    (metadata_pages_of t)
  have hzero : sumFreePages
      (⟨start_addr, end_addr - start_addr, t, fun _ => [], fun _ => ⟨false, 0⟩, 0, 0⟩ :
        BuddyState) = 0 := by
    show (List.range (MAX_ORDER + 1)).foldl (fun a k => a + ([] : List Nat).length * 2 ^ k) 0 = 0
    have hfun : (fun (a k : Nat) => a + ([] : List Nat).length * 2 ^ k) =
        fun (b : Nat) (_ : Nat) => b := by
      funext a k
      simp
    rw [hfun]
    exact foldl_keep _ 0
  rw [hzero] at key
  rw [← he] at key
  have h2 : (buddy_init start_addr end_addr).allocated_pages = 0 := by rw [he]; exact hcp.2
  have h3 : (buddy_init start_addr end_addr).total_pages = t := by rw [he]; exact hcp.1
  refine ⟨?_, h2⟩
  rw [h2, h3]
  unfold usable_pages_of
  have hsz : (⟨start_addr, end_addr - start_addr, t, fun _ => [], fun _ => ⟨false, 0⟩, 0, 0⟩ :
      BuddyState).total_pages = t := rfl
  rw [hsz] at key
  omega

theorem split_pres : ∀ fuel s block current target,
    (split_loop fuel s block current target).total_pages = s.total_pages ∧
      (split_loop fuel s block current target).allocated_pages = s.allocated_pages := by
  intro fuel
  induction fuel with
  | zero => exact fun s block current target => ⟨rfl, rfl⟩
  | succ fuel ih =>
    intro s block current target
    unfold split_loop
    split
    · dsimp only []
      by_cases hb : block ^^^ (1 <<< (current - 1)) < s.total_pages
      · rw [if_pos hb]
        exact ih _ _ _ _
      · rw [if_neg hb]
        exact ih _ _ _ _
    · exact ⟨rfl, rfl⟩

theorem split_sum : ∀ fuel s block current target,
    target ≤ current → current ≤ MAX_ORDER → current - target ≤ fuel →
    (∀ c, target ≤ c → c < current → block ^^^ (1 <<< c) < s.total_pages) →
    sumFreePages (split_loop fuel s block current target) + 2 ^ target =
      sumFreePages s + 2 ^ current := by
  intro fuel
  induction fuel with
  | zero =>
    intro s block current target h1 _ h3 _
    have : target = current := by omega
    subst this
    rfl
  | succ fuel ih =>
    intro s block current target h1 h2 h3 hrange
    unfold split_loop
    by_cases hlt : target < current
    · rw [if_pos hlt]
      dsimp only []
      have hb : block ^^^ (1 <<< (current - 1)) < s.total_pages :=
        hrange (current - 1) (by omega) (by omega)
      rw [if_pos hb]
      have hrec := ih
        { add_to_free_list s (block ^^^ (1 <<< (current - 1))) (current - 1) with
          metadata := fun i =>
            if i = block then
              { (add_to_free_list s (block ^^^ (1 <<< (current - 1))) (current - 1)).metadata i with
                order := current - 1 }
            else (add_to_free_list s (block ^^^ (1 <<< (current - 1))) (current - 1)).metadata i }
        block (current - 1) target (by omega) (by omega) (by omega)
        (fun c hc1 hc2 => hrange c hc1 (by omega))
      dsimp only [] at hrec
      have hadd : sumFreePages (add_to_free_list s (block ^^^ (1 <<< (current - 1))) (current - 1)) =
          sumFreePages s + 2 ^ (current - 1) :=
        sumFree_add s _ _ (by omega)
      have hmeta : sumFreePages
          { add_to_free_list s (block ^^^ (1 <<< (current - 1))) (current - 1) with
            metadata := fun i =>
              if i = block then
                { (add_to_free_list s (block ^^^ (1 <<< (current - 1))) (current - 1)).metadata i with
                  order := current - 1 }
              else (add_to_free_list s (block ^^^ (1 <<< (current - 1))) (current - 1)).metadata i } =
          sumFreePages (add_to_free_list s (block ^^^ (1 <<< (current - 1))) (current - 1)) := rfl
      dsimp only [] at hmeta
      have hcur : current - 1 + 1 = current := by omega
      have hpow : 2 ^ (current - 1) + 2 ^ (current - 1) = 2 ^ current := by
        have h := pow_succ 2 (current - 1)
        rw [hcur] at h
        omega
      omega
    · rw [if_neg hlt]
      have : target = current := by omega
      subst this
      rfl

theorem get_order_le (p : Nat) (h : ¬ get_order_for_pages p = 0xFF) :
    get_order_for_pages p ≤ MAX_ORDER := by
  unfold get_order_for_pages at h ⊢
  dsimp only [] at h ⊢
  by_cases h1 : order_loop (MAX_ORDER + 2) 0 1 p ≤ MAX_ORDER
  · rw [if_pos h1]
    exact h1
  · rw [if_neg h1] at h
    exact absurd rfl h

theorem buddy_alloc_conservation (s : BuddyState) (count : Nat) (hwf : WfState s)
    (hSum : sumFreePages s + s.allocated_pages = usable_pages_of s.total_pages) :
    sumFreePages (buddy_alloc_pages s count).2 +
        (buddy_alloc_pages s count).2.allocated_pages =
      usable_pages_of s.total_pages := by
  obtain ⟨hw1, hw2, hw3⟩ := hwf
  unfold buddy_alloc_pages
  by_cases hc : count = 0
  · rw [if_pos hc]
    exact hSum
  rw [if_neg hc]
  dsimp only []
  by_cases hord : get_order_for_pages count = 0xFF
  · rw [if_pos hord]
    exact hSum
  rw [if_neg hord]
  cases hfind : (List.range' (get_order_for_pages count)
      (MAX_ORDER + 1 - get_order_for_pages count)).find? (fun k => ¬ s.free_lists k = []) with
  | none => exact hSum
  | some so =>
    dsimp only []
    have ho_le : get_order_for_pages count ≤ MAX_ORDER := get_order_le count hord
    have hso_mem := List.mem_of_find?_eq_some hfind
    have hso_range : get_order_for_pages count ≤ so ∧ so ≤ MAX_ORDER := by
      rw [List.mem_range'_1] at hso_mem
      omega
    have hne : ¬ s.free_lists so = [] := by
      have h := List.find?_some hfind
      exact of_decide_eq_true h
    cases hblk2 : s.free_lists so with
    | nil => exact absurd hblk2 hne
    | cons block rest =>
      dsimp only []
      have hmem : block ∈ s.free_lists so := by
        rw [hblk2]
        exact List.mem_cons_self block rest
      obtain ⟨hbf, hbord, hbtot, hbxor⟩ := hw2 so hso_range.2 block hmem
      have hrm := sumFree_remove s block so hso_range.2 hmem
      have hmo : ((remove_from_free_list s block so).metadata block).order = so := by
        show (if block = block then
            { (s.metadata block) with is_free := false } else s.metadata block).order = so
        rw [if_pos rfl]
        exact hbord
      rw [hmo]
      have husable : usable_pages_of s.total_pages ≤ s.total_pages := Nat.sub_le _ _
      by_cases hsp : get_order_for_pages count < so
      · rw [if_pos hsp]
        have hsum2 : sumFreePages (split_block (remove_from_free_list s block so) block
              (get_order_for_pages count)) + 2 ^ get_order_for_pages count =
            sumFreePages (remove_from_free_list s block so) + 2 ^ so := by
          unfold split_block
          rw [hmo]
          exact split_sum so _ block so _ (Nat.le_of_lt hsp) hso_range.2 (by omega)
            (fun c hc1 hc2 => hbxor c hc2)
        have hpres : (split_block (remove_from_free_list s block so) block
              (get_order_for_pages count)).total_pages = s.total_pages ∧
            (split_block (remove_from_free_list s block so) block
              (get_order_for_pages count)).allocated_pages = s.allocated_pages := by
          unfold split_block
          rw [hmo]
          exact split_pres so _ block so _
        show sumFreePages (split_block (remove_from_free_list s block so) block
              (get_order_for_pages count)) +
            ((split_block (remove_from_free_list s block so) block
              (get_order_for_pages count)).allocated_pages +
              1 <<< get_order_for_pages count) % 2 ^ 32 =
          usable_pages_of s.total_pages
        rw [Nat.one_shiftLeft, hpres.2]
        have hpowle : 2 ^ get_order_for_pages count ≤ 2 ^ so :=
          Nat.pow_le_pow_right (by norm_num) hso_range.1
        have hlt : s.allocated_pages + 2 ^ get_order_for_pages count < 2 ^ 32 := by omega
        rw [Nat.mod_eq_of_lt hlt]
        omega
      · rw [if_neg hsp]
        have hoeq : get_order_for_pages count = so := by omega
        show sumFreePages (remove_from_free_list s block so) +
            ((remove_from_free_list s block so).allocated_pages +
              1 <<< get_order_for_pages count) % 2 ^ 32 =
          usable_pages_of s.total_pages
        have hallocp : (remove_from_free_list s block so).allocated_pages =
            s.allocated_pages := rfl
        rw [hallocp, Nat.one_shiftLeft, hoeq]
        have hlt : s.allocated_pages + 2 ^ so < 2 ^ 32 := by omega
        rw [Nat.mod_eq_of_lt hlt]
        omega

theorem xor_shift_ne (b c : Nat) : ¬ b ^^^ (1 <<< c) = b := by
  intro h
  have h2 : b ^^^ (b ^^^ (1 <<< c)) = b ^^^ b := by rw [h]
  rw [← Nat.xor_assoc, Nat.xor_self, Nat.zero_xor] at h2
  rw [Nat.one_shiftLeft] at h2
  have := Nat.pos_pow_of_pos c (show 0 < 2 by norm_num)
  omega

theorem clause3_remove (s : BuddyState) (b k0 : Nat)
    (hP : ∀ i, i < s.total_pages → (s.metadata i).is_free = true →
      (s.metadata i).order ≤ MAX_ORDER ∧ i ∈ s.free_lists ((s.metadata i).order)) :
    ∀ i, i < (remove_from_free_list s b k0).total_pages →
      ((remove_from_free_list s b k0).metadata i).is_free = true →
      ((remove_from_free_list s b k0).metadata i).order ≤ MAX_ORDER ∧
        i ∈ (remove_from_free_list s b k0).free_lists
          (((remove_from_free_list s b k0).metadata i).order) := by
  intro i hi hf
  by_cases hib : i = b
  · exfalso
    subst hib
    have hff : ((remove_from_free_list s i k0).metadata i).is_free = false := by
      show (if i = i then { s.metadata i with is_free := false } else s.metadata i).is_free = false
      rw [if_pos rfl]
    rw [hff] at hf
    exact Bool.noConfusion hf
  · have hmi : (remove_from_free_list s b k0).metadata i = s.metadata i := by
      show (if i = b then { s.metadata i with is_free := false } else s.metadata i) = s.metadata i
      rw [if_neg hib]
    rw [hmi] at hf ⊢
    obtain ⟨h1, h2⟩ := hP i hi hf
    refine ⟨h1, ?_⟩
    show i ∈ (if (s.metadata i).order = k0 then (s.free_lists k0).erase b
      else s.free_lists ((s.metadata i).order))
    by_cases hk : (s.metadata i).order = k0
    · rw [if_pos hk]
      exact (List.mem_erase_of_ne hib).mpr (hk ▸ h2)
    · rw [if_neg hk]
      exact h2

theorem clause3_meta_order (s : BuddyState) (b o' : Nat)
    (hb : (s.metadata b).is_free = false)
    (hP : ∀ i, i < s.total_pages → (s.metadata i).is_free = true →
      (s.metadata i).order ≤ MAX_ORDER ∧ i ∈ s.free_lists ((s.metadata i).order)) :
    ∀ i, i < ({ s with metadata := fun j =>
        if j = b then { s.metadata j with order := o' } else s.metadata j } :
          BuddyState).total_pages →
      (((({ s with metadata := fun j =>
        if j = b then { s.metadata j with order := o' } else s.metadata j } :
          BuddyState)).metadata i)).is_free = true →
      (((({ s with metadata := fun j =>
        if j = b then { s.metadata j with order := o' } else s.metadata j } :
          BuddyState)).metadata i)).order ≤ MAX_ORDER ∧
        i ∈ (({ s with metadata := fun j =>
        if j = b then { s.metadata j with order := o' } else s.metadata j } :
          BuddyState)).free_lists
          ((((({ s with metadata := fun j =>
        if j = b then { s.metadata j with order := o' } else s.metadata j } :
          BuddyState)).metadata i)).order) := by
  intro i hi hf
  by_cases hib : i = b
  · exfalso
    subst hib
    have hff : (if i = i then { s.metadata i with order := o' } else s.metadata i).is_free =
        false := by
      rw [if_pos rfl]
      exact hb
    have hf' : (if i = i then { s.metadata i with order := o' } else s.metadata i).is_free =
        true := hf
    rw [hff] at hf'
    exact Bool.noConfusion hf'
  · have hmi : (if i = b then { s.metadata i with order := o' } else s.metadata i) =
        s.metadata i := by
      rw [if_neg hib]
    have hf' : (s.metadata i).is_free = true := by
      have : (if i = b then { s.metadata i with order := o' } else s.metadata i).is_free =
          true := hf
      rwa [hmi] at this
    obtain ⟨h1, h2⟩ := hP i hi hf'
    show (if i = b then { s.metadata i with order := o' } else s.metadata i).order ≤ MAX_ORDER ∧
      i ∈ s.free_lists ((if i = b then { s.metadata i with order := o' } else s.metadata i).order)
    rw [hmi]
    exact ⟨h1, h2⟩

theorem merge_sum : ∀ fuel s block order,
    (∀ i, i < s.total_pages → (s.metadata i).is_free = true →
      (s.metadata i).order ≤ MAX_ORDER ∧ i ∈ s.free_lists ((s.metadata i).order)) →
    (s.metadata block).order = order → (s.metadata block).is_free = false →
    block < s.total_pages → order ≤ MAX_ORDER →
    sumFreePages (merge_loop fuel s block order).2.2 + 2 ^ (merge_loop fuel s block order).2.1 =
        sumFreePages s + 2 ^ order ∧
      (merge_loop fuel s block order).2.2.total_pages = s.total_pages ∧
      (merge_loop fuel s block order).2.2.allocated_pages = s.allocated_pages ∧
      ((merge_loop fuel s block order).2.2.metadata (merge_loop fuel s block order).1).order =
        (merge_loop fuel s block order).2.1 ∧
      (merge_loop fuel s block order).2.1 ≤ MAX_ORDER := by
  intro fuel
  induction fuel with
  | zero => exact fun s block order hP hmeta hfree hblock horder => ⟨rfl, rfl, rfl, hmeta, horder⟩
  | succ fuel ih =>
    intro s block order hP hmeta hfree hblock horder
    unfold merge_loop
    by_cases h1 : order < MAX_ORDER
    · rw [if_pos h1]
      dsimp only []
      by_cases h2 : block ^^^ (1 <<< order) < s.total_pages ∧
          (s.metadata (block ^^^ (1 <<< order))).is_free = true ∧
          (s.metadata (block ^^^ (1 <<< order))).order = order
      · rw [if_pos h2]
        have hbud_mem : (block ^^^ (1 <<< order)) ∈ s.free_lists order := by
          have hm := (hP (block ^^^ (1 <<< order)) h2.1 h2.2.1).2
          rw [h2.2.2] at hm
          exact hm
        have hrm := sumFree_remove s (block ^^^ (1 <<< order)) order horder hbud_mem
        have hP1 := clause3_remove s (block ^^^ (1 <<< order)) order hP
        by_cases hbb : block ^^^ (1 <<< order) < block
        · rw [if_pos hbb]
          have hb1 : ((remove_from_free_list s (block ^^^ (1 <<< order)) order).metadata
              (block ^^^ (1 <<< order))).is_free = false := by
            show (if (block ^^^ (1 <<< order)) = (block ^^^ (1 <<< order)) then
              { s.metadata (block ^^^ (1 <<< order)) with is_free := false }
              else s.metadata (block ^^^ (1 <<< order))).is_free = false
            rw [if_pos rfl]
          have hP2 := clause3_meta_order (remove_from_free_list s (block ^^^ (1 <<< order)) order)
            (block ^^^ (1 <<< order)) (order + 1) hb1 hP1
          have hmeta2 : ((({ remove_from_free_list s (block ^^^ (1 <<< order)) order with
              metadata := fun j => if j = (block ^^^ (1 <<< order)) then
                { (remove_from_free_list s (block ^^^ (1 <<< order)) order).metadata j with
                  order := order + 1 }
                else (remove_from_free_list s (block ^^^ (1 <<< order)) order).metadata j } :
              BuddyState)).metadata (block ^^^ (1 <<< order))).order = order + 1 := by
            show (if (block ^^^ (1 <<< order)) = (block ^^^ (1 <<< order)) then
              { (remove_from_free_list s (block ^^^ (1 <<< order)) order).metadata
                  (block ^^^ (1 <<< order)) with order := order + 1 }
              else (remove_from_free_list s (block ^^^ (1 <<< order)) order).metadata
                (block ^^^ (1 <<< order))).order = order + 1
            rw [if_pos rfl]
          have hfree2 : ((({ remove_from_free_list s (block ^^^ (1 <<< order)) order with
              metadata := fun j => if j = (block ^^^ (1 <<< order)) then
                { (remove_from_free_list s (block ^^^ (1 <<< order)) order).metadata j with
                  order := order + 1 }
                else (remove_from_free_list s (block ^^^ (1 <<< order)) order).metadata j } :
              BuddyState)).metadata (block ^^^ (1 <<< order))).is_free = false := by
            show (if (block ^^^ (1 <<< order)) = (block ^^^ (1 <<< order)) then
              { (remove_from_free_list s (block ^^^ (1 <<< order)) order).metadata
                  (block ^^^ (1 <<< order)) with order := order + 1 }
              else (remove_from_free_list s (block ^^^ (1 <<< order)) order).metadata
                (block ^^^ (1 <<< order))).is_free = false
            rw [if_pos rfl]
            exact hb1
          have IH := ih ({ remove_from_free_list s (block ^^^ (1 <<< order)) order with
              metadata := fun j => if j = (block ^^^ (1 <<< order)) then
                { (remove_from_free_list s (block ^^^ (1 <<< order)) order).metadata j with
                  order := order + 1 }
                else (remove_from_free_list s (block ^^^ (1 <<< order)) order).metadata j } :
              BuddyState) (block ^^^ (1 <<< order)) (order + 1) hP2 hmeta2 hfree2 h2.1
            (by omega)
          refine ⟨?_, IH.2.1, IH.2.2.1, IH.2.2.2.1, IH.2.2.2.2⟩
          have hS2 : sumFreePages ({ remove_from_free_list s (block ^^^ (1 <<< order)) order with
              metadata := fun j => if j = (block ^^^ (1 <<< order)) then
                { (remove_from_free_list s (block ^^^ (1 <<< order)) order).metadata j with
                  order := order + 1 }
                else (remove_from_free_list s (block ^^^ (1 <<< order)) order).metadata j } :
              BuddyState) =
            sumFreePages (remove_from_free_list s (block ^^^ (1 <<< order)) order) := rfl
          have IH1 := IH.1
          dsimp only [] at IH1 hS2 ⊢
          have hpow := pow_succ 2 order
          omega
        · rw [if_neg hbb]
          have hbne : ¬ block = block ^^^ (1 <<< order) :=
            fun h => xor_shift_ne block order h.symm
          have hb1 : ((remove_from_free_list s (block ^^^ (1 <<< order)) order).metadata
              block).is_free = false := by
            show (if block = (block ^^^ (1 <<< order)) then
              { s.metadata block with is_free := false } else s.metadata block).is_free = false
            rw [if_neg hbne]
            exact hfree
          have hP2 := clause3_meta_order (remove_from_free_list s (block ^^^ (1 <<< order)) order)
            block (order + 1) hb1 hP1
          have hmeta2 : ((({ remove_from_free_list s (block ^^^ (1 <<< order)) order with
              metadata := fun j => if j = block then
                { (remove_from_free_list s (block ^^^ (1 <<< order)) order).metadata j with
                  order := order + 1 }
                else (remove_from_free_list s (block ^^^ (1 <<< order)) order).metadata j } :
              BuddyState)).metadata block).order = order + 1 := by
            show (if block = block then
              { (remove_from_free_list s (block ^^^ (1 <<< order)) order).metadata block with
                order := order + 1 }
              else (remove_from_free_list s (block ^^^ (1 <<< order)) order).metadata
                block).order = order + 1
            rw [if_pos rfl]
          have hfree2 : ((({ remove_from_free_list s (block ^^^ (1 <<< order)) order with
              metadata := fun j => if j = block then
                { (remove_from_free_list s (block ^^^ (1 <<< order)) order).metadata j with
                  order := order + 1 }
                else (remove_from_free_list s (block ^^^ (1 <<< order)) order).metadata j } :
              BuddyState)).metadata block).is_free = false := by
            show (if block = block then
              { (remove_from_free_list s (block ^^^ (1 <<< order)) order).metadata block with
                order := order + 1 }
              else (remove_from_free_list s (block ^^^ (1 <<< order)) order).metadata
                block).is_free = false
            rw [if_pos rfl]
            exact hb1
          have IH := ih ({ remove_from_free_list s (block ^^^ (1 <<< order)) order with
              metadata := fun j => if j = block then
                { (remove_from_free_list s (block ^^^ (1 <<< order)) order).metadata j with
                  order := order + 1 }
                else (remove_from_free_list s (block ^^^ (1 <<< order)) order).metadata j } :
              BuddyState) block (order + 1) hP2 hmeta2 hfree2 hblock (by omega)
          refine ⟨?_, IH.2.1, IH.2.2.1, IH.2.2.2.1, IH.2.2.2.2⟩
          have hS2 : sumFreePages ({ remove_from_free_list s (block ^^^ (1 <<< order)) order with
              metadata := fun j => if j = block then
                { (remove_from_free_list s (block ^^^ (1 <<< order)) order).metadata j with
                  order := order + 1 }
                else (remove_from_free_list s (block ^^^ (1 <<< order)) order).metadata j } :
              BuddyState) =
            sumFreePages (remove_from_free_list s (block ^^^ (1 <<< order)) order) := rfl
          have IH1 := IH.1
          dsimp only [] at IH1 hS2 ⊢
          have hpow := pow_succ 2 order
          omega
      · rw [if_neg h2]
        exact ⟨rfl, rfl, rfl, hmeta, horder⟩
    · rw [if_neg h1]
      exact ⟨rfl, rfl, rfl, hmeta, horder⟩

theorem add_alloc (s : BuddyState) (b k : Nat) :
    (add_to_free_list s b k).allocated_pages = s.allocated_pages := rfl

theorem sub32_exact (a b : Nat) (hba : b ≤ a) (ha : a < 2 ^ 32) : sub32 a b = a - b := by
  unfold sub32
  have hb : b < 2 ^ 32 := by omega
  rw [Nat.mod_eq_of_lt ha, Nat.mod_eq_of_lt hb]
  have h : a + (2 ^ 32 - b) = (a - b) + 2 ^ 32 := by omega
  rw [h, Nat.add_mod_right]
  exact Nat.mod_eq_of_lt (by omega)

theorem buddy_free_conservation (s : BuddyState) (paddr count : Nat) (hwf : WfState s)
    (hSum : sumFreePages s + s.allocated_pages = usable_pages_of s.total_pages)
    (hge : s.memory_start ≤ paddr)
    (hidx : (paddr - s.memory_start) / PAGE_SIZE < s.total_pages)
    (hfree : (s.metadata ((paddr - s.memory_start) / PAGE_SIZE)).is_free = false)
    (hordle : (s.metadata ((paddr - s.memory_start) / PAGE_SIZE)).order ≤ MAX_ORDER)
    (halloc : 2 ^ (s.metadata ((paddr - s.memory_start) / PAGE_SIZE)).order ≤
      s.allocated_pages) :
    sumFreePages (buddy_free_pages s paddr count) +
        (buddy_free_pages s paddr count).allocated_pages =
      usable_pages_of s.total_pages := by
  obtain ⟨hw1, hw2, hw3⟩ := hwf
  have husable : usable_pages_of s.total_pages ≤ s.total_pages := Nat.sub_le _ _
  unfold buddy_free_pages
  rw [if_neg (by omega)]
  dsimp only []
  rw [if_neg (by omega)]
  rw [if_neg (by rw [hfree]; exact Bool.false_ne_true)]
  unfold merge_block
  dsimp only []
  have hms := merge_sum MAX_ORDER
    ({ s with
      allocated_pages := sub32 s.allocated_pages
        (1 <<< (s.metadata ((paddr - s.memory_start) / PAGE_SIZE)).order)
      allocation_count := sub32 s.allocation_count 1 } : BuddyState)
    ((paddr - s.memory_start) / PAGE_SIZE)
    ((s.metadata ((paddr - s.memory_start) / PAGE_SIZE)).order)
    (fun i hi hf => hw3 i hi hf) rfl hfree hidx hordle
  have hS1 : sumFreePages ({ s with
      allocated_pages := sub32 s.allocated_pages
        (1 <<< (s.metadata ((paddr - s.memory_start) / PAGE_SIZE)).order)
      allocation_count := sub32 s.allocation_count 1 } : BuddyState) = sumFreePages s := rfl
  dsimp only [] at hms hS1 ⊢
  rw [hms.2.2.2.1]
  rw [sumFree_add _ _ _ hms.2.2.2.2]
  rw [add_alloc]
  have halloc32 : s.allocated_pages < 2 ^ 32 := by omega
  have hshift : (1 <<< (s.metadata ((paddr - s.memory_start) / PAGE_SIZE)).order) =
      2 ^ (s.metadata ((paddr - s.memory_start) / PAGE_SIZE)).order := Nat.one_shiftLeft _
  have hsub : sub32 s.allocated_pages
      (1 <<< (s.metadata ((paddr - s.memory_start) / PAGE_SIZE)).order) =
      s.allocated_pages - 2 ^ (s.metadata ((paddr - s.memory_start) / PAGE_SIZE)).order := by
    rw [hshift]
    exact sub32_exact _ _ halloc halloc32
  have hc1 := hms.1
  have hc3 := hms.2.2.1
  omega

theorem get_free_identity (s : BuddyState) :
    (buddy_get_free_pages s + s.allocated_pages) % 2 ^ 32 = s.total_pages % 2 ^ 32 := by
  unfold buddy_get_free_pages sub32
  omega

/-- **C3** (amended): conservation for the buddy allocator. -/
theorem c3_conservation_amended :
    (∀ start_addr end_addr,
      sumFreePages (buddy_init start_addr end_addr) +
          (buddy_init start_addr end_addr).allocated_pages =
        usable_pages_of (buddy_init start_addr end_addr).total_pages) ∧
    (∀ s count, WfState s →
      sumFreePages s + s.allocated_pages = usable_pages_of s.total_pages →
      sumFreePages (buddy_alloc_pages s count).2 +
          (buddy_alloc_pages s count).2.allocated_pages =
        usable_pages_of s.total_pages) ∧
    (∀ s paddr count, WfState s →
      sumFreePages s + s.allocated_pages = usable_pages_of s.total_pages →
      s.memory_start ≤ paddr →
      (paddr - s.memory_start) / PAGE_SIZE < s.total_pages →
      (s.metadata ((paddr - s.memory_start) / PAGE_SIZE)).is_free = false →
      (s.metadata ((paddr - s.memory_start) / PAGE_SIZE)).order ≤ MAX_ORDER →
      2 ^ (s.metadata ((paddr - s.memory_start) / PAGE_SIZE)).order ≤ s.allocated_pages →
      sumFreePages (buddy_free_pages s paddr count) +
          (buddy_free_pages s paddr count).allocated_pages =
        usable_pages_of s.total_pages) ∧
    (∀ s, (buddy_get_free_pages s + s.allocated_pages) % 2 ^ 32 = s.total_pages % 2 ^ 32) :=
  ⟨fun a b => (buddy_init_conservation a b).1,
   fun s count hwf hsum => buddy_alloc_conservation s count hwf hsum,
   fun s paddr count hwf hsum h1 h2 h3 h4 h5 =>
     buddy_free_conservation s paddr count hwf hsum h1 h2 h3 h4 h5,
   fun s => get_free_identity s⟩

theorem c3_conservation_witness :
    (WfState bx ∧ sumFreePages bx + bx.allocated_pages = usable_pages_of bx.total_pages) ∧
    sumFreePages (buddy_alloc_pages bx 4).2 + (buddy_alloc_pages bx 4).2.allocated_pages =
      usable_pages_of bx.total_pages ∧
    sumFreePages (buddy_free_pages (buddy_alloc_pages bx 4).2 0x109000 4) +
        (buddy_free_pages (buddy_alloc_pages bx 4).2 0x109000 4).allocated_pages =
      usable_pages_of (buddy_alloc_pages bx 4).2.total_pages :=
  ⟨⟨by decide, by decide⟩,
   c3_conservation_amended.2.1 bx 4 (by decide) (by decide),
   c3_conservation_amended.2.2.1 (buddy_alloc_pages bx 4).2 0x109000 4 (by decide) (by decide)
     (by decide) (by decide) (by decide) (by decide) (by decide)⟩

end Buddy


/-! ### C1: priority-scheduler aging progress -/

namespace Priority

theorem stepFrom_lo (k q a : Nat) (h : q < k ∨ q = MAX_PRIORITY) :
    stepFrom k q a = (q, a) := by
  unfold stepFrom
  rw [if_pos h]

theorem stepFrom_age (k q a : Nat) (h : ¬ (q < k ∨ q = MAX_PRIORITY))
    (h2 : a + 1 < AGING_INTERVAL) : stepFrom k q a = (q, a + 1) := by
  unfold stepFrom
  rw [if_neg h, Nat.mod_eq_of_lt (show a + 1 < 2 ^ 32 by
    simp only [AGING_INTERVAL] at h2; omega)]
  rw [if_pos h2]

theorem stepFrom_top (k q a : Nat) (h : ¬ (q < k ∨ q = MAX_PRIORITY))
    (h2 : AGING_INTERVAL ≤ a + 1) (h3 : a + 1 < 2 ^ 32) (h4 : q + 1 = MAX_PRIORITY) :
    stepFrom k q a = (MAX_PRIORITY, 0) := by
  unfold stepFrom
  rw [if_neg h, Nat.mod_eq_of_lt h3, if_neg (by omega), if_pos h4]

theorem stepFrom_up (k q a : Nat) (h : ¬ (q < k ∨ q = MAX_PRIORITY))
    (h2 : AGING_INTERVAL ≤ a + 1) (h3 : a + 1 < 2 ^ 32) (h4 : ¬ q + 1 = MAX_PRIORITY) :
    stepFrom k q a = (q + 1, 1) := by
  unfold stepFrom
  rw [if_neg h, Nat.mod_eq_of_lt h3, if_neg (by omega), if_neg h4]

theorem age_walk_eq (q : Nat) : ∀ l : List PProc,
    age_walk q l =
      (l.filterMap (fun p => if (p.age + 1) % 2 ^ 32 < AGING_INTERVAL then
          some { p with age := (p.age + 1) % 2 ^ 32 } else none),
       l.filterMap (fun p => if AGING_INTERVAL ≤ (p.age + 1) % 2 ^ 32 then
          some { p with priority := min (q + AGING_BOOST) MAX_PRIORITY, age := 0 }
        else none)) := by
  intro l
  induction l with
  | nil => rfl
  | cons p rest ih =>
    unfold age_walk
    rw [ih]
    dsimp only []
    by_cases hc : AGING_INTERVAL ≤ (p.age + 1) % 2 ^ 32
    · rw [if_pos hc]
      simp only [List.filterMap_cons]
      rw [if_neg (by omega), if_pos hc]
    · rw [if_neg hc]
      simp only [List.filterMap_cons]
      rw [if_pos (by omega), if_neg hc]

theorem ageStep_getD (k : Nat) (qs : Queues) (hlen : qs.length = 32) (hk1 : k + 1 < 32)
    (r : Nat) :
    (ageStepQueue k qs).getD r [] =
      if r = k + 1 then qs.getD (k + 1) [] ++ (age_walk k (qs.getD k [])).2
      else if r = k then (age_walk k (qs.getD k [])).1
      else qs.getD r [] := by
  unfold ageStepQueue
  dsimp only []
  by_cases h1 : r = k + 1
  · subst h1
    rw [if_pos rfl, getD_set_self _ _ _ _ (by rw [List.length_set, hlen]; exact hk1)]
  · rw [if_neg h1, getD_set_ne _ _ _ _ _ (fun h => h1 h.symm)]
    by_cases h2 : r = k
    · subst h2
      rw [if_pos rfl, getD_set_self _ _ _ _ (by rw [hlen]; omega)]
    · rw [if_neg h2, getD_set_ne _ _ _ _ _ (fun h => h2 h.symm)]

theorem ageStep_len (k : Nat) (qs : Queues) : (ageStepQueue k qs).length = qs.length := by
  unfold ageStepQueue
  dsimp only []
  rw [List.length_set, List.length_set]

theorem ageStep_keep (k q a pid : Nat) (qs : Queues) (hlen : qs.length = 32)
    (hk1 : k + 1 ≤ MAX_PRIORITY) (hqk : ¬ q = k) (hat : pidAt qs pid q a) :
    pidAt (ageStepQueue k qs) pid q a := by
  obtain ⟨⟨p, hpmem, hppid, hpage, hpprio⟩, hall⟩ := hat
  have hM : MAX_PRIORITY = 31 := rfl
  have hk32 : k + 1 < 32 := by omega
  constructor
  · rw [ageStep_getD k qs hlen hk32 q]
    by_cases hq1 : q = k + 1
    · rw [if_pos hq1]
      exact ⟨p, List.mem_append_left _ (hq1 ▸ hpmem), hppid, hpage, hpprio⟩
    · rw [if_neg hq1, if_neg hqk]
      exact ⟨p, hpmem, hppid, hpage, hpprio⟩
  · intro r hr p' hp'mem hp'pid
    rw [ageStep_getD k qs hlen hk32 r] at hp'mem
    by_cases hr1 : r = k + 1
    · rw [if_pos hr1] at hp'mem
      rcases List.mem_append.mp hp'mem with hmem | hmem
    
      · exact hall r hr p' (hr1 ▸ hmem) hp'pid
      · exfalso
        rw [age_walk_eq] at hmem
        obtain ⟨p0, hp0mem, hp0eq⟩ := List.mem_filterMap.mp hmem
        by_cases hcond : AGING_INTERVAL ≤ (p0.age + 1) % 2 ^ 32
        · rw [if_pos hcond] at hp0eq
          have hp0' := Option.some.inj hp0eq
          have hp0pid : p0.pid = pid := by
            rw [← hp0'] at hp'pid
            exact hp'pid
          have hkq := (hall k (by omega) p0 hp0mem hp0pid).1
          exact hqk hkq.symm
        · rw [if_neg hcond] at hp0eq
          exact Option.noConfusion hp0eq
    · rw [if_neg hr1] at hp'mem
      by_cases hrk : r = k
      · rw [if_pos hrk] at hp'mem
        exfalso
        rw [age_walk_eq] at hp'mem
        obtain ⟨p0, hp0mem, hp0eq⟩ := List.mem_filterMap.mp hp'mem
        by_cases hcond : (p0.age + 1) % 2 ^ 32 < AGING_INTERVAL
        · rw [if_pos hcond] at hp0eq
          have hp0' := Option.some.inj hp0eq
          have hp0pid : p0.pid = pid := by
            rw [← hp0'] at hp'pid
            exact hp'pid
          have hkq := (hall k (by omega) p0 hp0mem hp0pid).1
          exact hqk hkq.symm
        · rw [if_neg hcond] at hp0eq
          exact Option.noConfusion hp0eq
      · rw [if_neg hrk] at hp'mem
        exact hall r hr p' hp'mem hp'pid

theorem ageStep_age (k a pid : Nat) (qs : Queues) (hlen : qs.length = 32)
    (hk1 : k + 1 ≤ MAX_PRIORITY) (ha1 : a + 1 < AGING_INTERVAL)
    (hat : pidAt qs pid k a) :
    pidAt (ageStepQueue k qs) pid k (a + 1) := by
  obtain ⟨⟨p, hpmem, hppid, hpage, hpprio⟩, hall⟩ := hat
  have hM : MAX_PRIORITY = 31 := rfl
  have hA : AGING_INTERVAL = 100 := rfl
  have hk32 : k + 1 < 32 := by omega
  have hmodp : (p.age + 1) % 2 ^ 32 = a + 1 := by
    rw [hpage]
    exact Nat.mod_eq_of_lt (by omega)
  constructor
  · rw [ageStep_getD k qs hlen hk32 k]
    rw [if_neg (by omega), if_pos rfl]
    refine ⟨{ p with age := (p.age + 1) % 2 ^ 32 }, ?_, hppid, ?_, hpprio⟩
    · rw [age_walk_eq]
      exact List.mem_filterMap.mpr ⟨p, hpmem, by rw [if_pos (by rw [hmodp]; exact ha1)]⟩
    · show (p.age + 1) % 2 ^ 32 = a + 1
      exact hmodp
  · intro r hr p' hp'mem hp'pid
    rw [ageStep_getD k qs hlen hk32 r] at hp'mem
    by_cases hr1 : r = k + 1
    · exfalso
      rw [if_pos hr1] at hp'mem
      rcases List.mem_append.mp hp'mem with hmem | hmem
    
      · have := (hall r hr p' (hr1 ▸ hmem) hp'pid).1
        omega
      · rw [age_walk_eq] at hmem
        obtain ⟨p0, hp0mem, hp0eq⟩ := List.mem_filterMap.mp hmem
        by_cases hcond : AGING_INTERVAL ≤ (p0.age + 1) % 2 ^ 32
        · rw [if_pos hcond] at hp0eq
          have hp0' := Option.some.inj hp0eq
          have hp0pid : p0.pid = pid := by
            rw [← hp0'] at hp'pid
            exact hp'pid
          obtain ⟨-, hp0age, -⟩ := hall k (by omega) p0 hp0mem hp0pid
          rw [hp0age, Nat.mod_eq_of_lt (by omega)] at hcond
          omega
        · rw [if_neg hcond] at hp0eq
          exact Option.noConfusion hp0eq
    · rw [if_neg hr1] at hp'mem
      by_cases hrk : r = k
      · rw [if_pos hrk] at hp'mem
        rw [age_walk_eq] at hp'mem
        obtain ⟨p0, hp0mem, hp0eq⟩ := List.mem_filterMap.mp hp'mem
        by_cases hcond : (p0.age + 1) % 2 ^ 32 < AGING_INTERVAL
        · rw [if_pos hcond] at hp0eq
          have hp0' := Option.some.inj hp0eq
          have hp0pid : p0.pid = pid := by
            rw [← hp0'] at hp'pid
            exact hp'pid
          obtain ⟨-, hp0age, hp0prio⟩ := hall k (by omega) p0 hp0mem hp0pid
          refine ⟨hrk, ?_, ?_⟩
          · rw [← hp0']
            show (p0.age + 1) % 2 ^ 32 = a + 1
            rw [hp0age]
            exact Nat.mod_eq_of_lt (by omega)
          · rw [← hp0']
            show p0.priority = k
            exact hp0prio
        · rw [if_neg hcond] at hp0eq
          exact Option.noConfusion hp0eq
      · rw [if_neg hrk] at hp'mem
        exact absurd (hall r hr p' hp'mem hp'pid).1 hrk

theorem ageStep_promote (k a pid : Nat) (qs : Queues) (hlen : qs.length = 32)
    (hk1 : k + 1 ≤ MAX_PRIORITY) (ha : a < AGING_INTERVAL) (ha2 : AGING_INTERVAL ≤ a + 1)
    (hat : pidAt qs pid k a) :
    pidAt (ageStepQueue k qs) pid (k + 1) 0 := by
  obtain ⟨⟨p, hpmem, hppid, hpage, hpprio⟩, hall⟩ := hat
  have hM : MAX_PRIORITY = 31 := rfl
  have hA : AGING_INTERVAL = 100 := rfl
  have hk32 : k + 1 < 32 := by omega
  have hmodp : (p.age + 1) % 2 ^ 32 = a + 1 := by
    rw [hpage]
    exact Nat.mod_eq_of_lt (by omega)
  have hmin : min (k + AGING_BOOST) MAX_PRIORITY = k + 1 := by
    show min (k + 1) MAX_PRIORITY = k + 1
    exact Nat.min_eq_left hk1
  constructor
  · rw [ageStep_getD k qs hlen hk32 (k + 1)]
    rw [if_pos rfl]
    refine ⟨{ p with priority := min (k + AGING_BOOST) MAX_PRIORITY, age := 0 },
      List.mem_append_right _ ?_, hppid, rfl, ?_⟩
    · rw [age_walk_eq]
      exact List.mem_filterMap.mpr ⟨p, hpmem, by rw [if_pos (by rw [hmodp]; exact ha2)]⟩
    · show min (k + AGING_BOOST) MAX_PRIORITY = k + 1
      exact hmin
  · intro r hr p' hp'mem hp'pid
    rw [ageStep_getD k qs hlen hk32 r] at hp'mem
    by_cases hr1 : r = k + 1
    · rw [if_pos hr1] at hp'mem
      rcases List.mem_append.mp hp'mem with hmem | hmem
    
      · exact absurd (hall r hr p' (hr1 ▸ hmem) hp'pid).1 (by omega)
      · rw [age_walk_eq] at hmem
        obtain ⟨p0, hp0mem, hp0eq⟩ := List.mem_filterMap.mp hmem
        by_cases hcond : AGING_INTERVAL ≤ (p0.age + 1) % 2 ^ 32
        · rw [if_pos hcond] at hp0eq
          have hp0' := Option.some.inj hp0eq
          have hp0pid : p0.pid = pid := by
            rw [← hp0'] at hp'pid
            exact hp'pid
          refine ⟨hr1, ?_, ?_⟩
          · rw [← hp0']
          · rw [← hp0']
            show min (k + AGING_BOOST) MAX_PRIORITY = k + 1
            exact hmin
        · rw [if_neg hcond] at hp0eq
          exact Option.noConfusion hp0eq
    · rw [if_neg hr1] at hp'mem
      by_cases hrk : r = k
      · exfalso
        rw [if_pos hrk] at hp'mem
        rw [age_walk_eq] at hp'mem
        obtain ⟨p0, hp0mem, hp0eq⟩ := List.mem_filterMap.mp hp'mem
        by_cases hcond : (p0.age + 1) % 2 ^ 32 < AGING_INTERVAL
        · rw [if_pos hcond] at hp0eq
          have hp0' := Option.some.inj hp0eq
          have hp0pid : p0.pid = pid := by
            rw [← hp0'] at hp'pid
            exact hp'pid
          obtain ⟨-, hp0age, -⟩ := hall k (by omega) p0 hp0mem hp0pid
          rw [hp0age, Nat.mod_eq_of_lt (by omega)] at hcond
          omega
        · rw [if_neg hcond] at hp0eq
          exact Option.noConfusion hp0eq
      · rw [if_neg hrk] at hp'mem
        exact absurd (hall r hr p' hp'mem hp'pid).1 hrk

theorem ageFrom_track : ∀ n k qs pid q a, MAX_PRIORITY - k = n → qs.length = 32 →
    q ≤ MAX_PRIORITY → a < AGING_INTERVAL → pidAt qs pid q a →
    pidAt (ageFrom k qs) pid (stepFrom k q a).1 (stepFrom k q a).2 ∧
      (ageFrom k qs).length = 32 ∧ (stepFrom k q a).1 ≤ MAX_PRIORITY ∧
      (stepFrom k q a).2 < AGING_INTERVAL := by
  intro n
  induction n with
  | zero =>
    intro k qs pid q a hn hlen hq ha hat
    have hM : MAX_PRIORITY = 31 := rfl
    have hageFrom : ageFrom k qs = qs := by
      unfold ageFrom
      rw [hn]
      rfl
    rw [hageFrom, stepFrom_lo k q a (by omega)]
    exact ⟨hat, hlen, hq, ha⟩
  | succ n ih =>
    intro k qs pid q a hn hlen hq ha hat
    have hM : MAX_PRIORITY = 31 := rfl
    have hA : AGING_INTERVAL = 100 := rfl
    have hk : k + 1 ≤ MAX_PRIORITY := by omega
    have hsplit : ageFrom k qs = ageFrom (k + 1) (ageStepQueue k qs) := by
      unfold ageFrom
      rw [show MAX_PRIORITY - k = (MAX_PRIORITY - (k + 1)) + 1 by omega, List.range'_succ]
      rfl
    rw [hsplit]
    have hlen' : (ageStepQueue k qs).length = 32 := by
      rw [ageStep_len]
      exact hlen
    by_cases hqk : q = k
    · by_cases hage : a + 1 < AGING_INTERVAL
      · have hres := ageStep_age k a pid qs hlen hk hage (hqk ▸ hat)
        have hih := ih (k + 1) (ageStepQueue k qs) pid k (a + 1) (by omega) hlen'
          (by omega) (by omega) hres
        rw [stepFrom_lo (k + 1) k (a + 1) (by omega)] at hih
        rw [hqk, stepFrom_age k k a (by omega) hage]
        exact hih
      · have hres := ageStep_promote k a pid qs hlen hk ha (by omega) (hqk ▸ hat)
        by_cases htop : k + 1 = MAX_PRIORITY
        · have hres' : pidAt (ageStepQueue k qs) pid MAX_PRIORITY 0 := htop ▸ hres
          have hih := ih (k + 1) (ageStepQueue k qs) pid MAX_PRIORITY 0 (by omega) hlen'
            (by omega) (by omega) hres'
          rw [stepFrom_lo (k + 1) MAX_PRIORITY 0 (Or.inr rfl)] at hih
          rw [hqk, stepFrom_top k k a (by omega) (by omega) (by omega) htop]
          exact hih
        · have hih := ih (k + 1) (ageStepQueue k qs) pid (k + 1) 0 (by omega) hlen'
            (by omega) (by omega) hres
          rw [stepFrom_age (k + 1) (k + 1) 0 (by omega) (by omega)] at hih
          rw [hqk, stepFrom_up k k a (by omega) (by omega) (by omega) htop]
          exact hih
    · have hres := ageStep_keep k q a pid qs hlen hk hqk hat
      have hih := ih (k + 1) (ageStepQueue k qs) pid q a (by omega) hlen' hq ha hres
      rcases Nat.lt_or_ge q (k + 1) with hlt | hge
      · have hqlt : q < k := by omega
        rw [stepFrom_lo (k + 1) q a (Or.inl hlt)] at hih
        rw [stepFrom_lo k q a (Or.inl hqlt)]
        exact hih
      · by_cases hq31 : q = MAX_PRIORITY
        · rw [stepFrom_lo (k + 1) q a (Or.inr hq31)] at hih
          rw [stepFrom_lo k q a (Or.inr hq31)]
          exact hih
        · by_cases hage : a + 1 < AGING_INTERVAL
          · rw [stepFrom_age (k + 1) q a (by omega) hage] at hih
            rw [stepFrom_age k q a (by omega) hage]
            exact hih
          · by_cases htop : q + 1 = MAX_PRIORITY
            · rw [stepFrom_top (k + 1) q a (by omega) (by omega) (by omega) htop] at hih
              rw [stepFrom_top k q a (by omega) (by omega) (by omega) htop]
              exact hih
            · rw [stepFrom_up (k + 1) q a (by omega) (by omega) (by omega) htop] at hih
              rw [stepFrom_up k q a (by omega) (by omega) (by omega) htop]
              exact hih

set_option maxHeartbeats 1000000 in
theorem tick_none (s : SchedState) (hc : s.current_process = none) :
    (priority_timer_tick s).current_process = none ∧
    (priority_timer_tick s).current_tick = (s.current_tick + 1) % 2 ^ 32 ∧
    (priority_timer_tick s).ready_queues =
      (if (s.current_tick + 1) % 2 ^ 32 % AGING_INTERVAL = 0 then
        age_processes s.ready_queues else s.ready_queues) := by
  unfold priority_timer_tick
  dsimp only []
  rw [hc]
  dsimp only []
  by_cases hag : (s.current_tick + 1) % 2 ^ 32 % AGING_INTERVAL = 0
  · rw [if_pos hag, if_pos hag]
    refine ⟨rfl, rfl, ?_⟩
    dsimp only []
  · rw [if_neg hag, if_neg hag]
    refine ⟨rfl, rfl, ?_⟩
    dsimp only []

theorem run_track : ∀ i s pid q a,
    s.ready_queues.length = 32 → s.current_process = none →
    q ≤ MAX_PRIORITY → a < AGING_INTERVAL →
    s.current_tick + i < 2 ^ 32 →
    pidAt s.ready_queues pid q a →
    pidAt (tickIter i s).ready_queues pid
      (ageIter (agePasses s.current_tick i) (q, a)).1
      (ageIter (agePasses s.current_tick i) (q, a)).2 := by
  intro i
  induction i with
  | zero =>
    intro s pid q a hlen hc hq ha hw hat
    have h0 : agePasses s.current_tick 0 = 0 := by
      simp only [agePasses, AGING_INTERVAL]
      omega
    rw [h0]
    exact hat
  | succ i ih =>
    intro s pid q a hlen hc hq ha hw hat
    have ht := tick_none s hc
    have htick : (priority_timer_tick s).current_tick = s.current_tick + 1 := by
      rw [ht.2.1]
      exact Nat.mod_eq_of_lt (by omega)
    by_cases hag : (s.current_tick + 1) % 2 ^ 32 % AGING_INTERVAL = 0
    · have hag' : (s.current_tick + 1) % AGING_INTERVAL = 0 := by
        rw [Nat.mod_eq_of_lt (show s.current_tick + 1 < 2 ^ 32 by omega)] at hag
        exact hag
      have hqs : (priority_timer_tick s).ready_queues = age_processes s.ready_queues := by
        rw [ht.2.2, if_pos hag]
      have haf := ageFrom_track (MAX_PRIORITY - 0) 0 s.ready_queues pid q a rfl hlen hq ha hat
      have hih := ih (priority_timer_tick s) pid (stepFrom 0 q a).1 (stepFrom 0 q a).2
        (by rw [hqs]; exact haf.2.1) ht.1 haf.2.2.1 haf.2.2.2
        (by rw [htick]; omega)
        (by rw [hqs]; exact haf.1)
      rw [htick] at hih
      have hcount : agePasses s.current_tick (i + 1) = agePasses (s.current_tick + 1) i + 1 := by
        simp only [agePasses, AGING_INTERVAL]
        simp only [AGING_INTERVAL] at hag'
        omega
      rw [hcount]
      exact hih
    · have hag' : ¬ (s.current_tick + 1) % AGING_INTERVAL = 0 := by
        rw [Nat.mod_eq_of_lt (show s.current_tick + 1 < 2 ^ 32 by omega)] at hag
        exact hag
      have hqs : (priority_timer_tick s).ready_queues = s.ready_queues := by
        rw [ht.2.2, if_neg hag]
      have hih := ih (priority_timer_tick s) pid q a (by rw [hqs]; exact hlen) ht.1 hq ha
        (by rw [htick]; omega) (by rw [hqs]; exact hat)
      rw [htick] at hih
      have hcount : agePasses s.current_tick (i + 1) = agePasses (s.current_tick + 1) i := by
        simp only [agePasses, AGING_INTERVAL]
        simp only [AGING_INTERVAL] at hag'
        omega
      rw [hcount]
      exact hih

theorem phi_eq (q a : Nat) (ha : a < AGING_INTERVAL) :
    phi q a = (MAX_PRIORITY - q) * AGING_INTERVAL - a := by
  unfold phi
  rw [Nat.min_eq_left (by simp only [AGING_INTERVAL] at ha ⊢; omega)]

theorem ageIter_reaches : ∀ n q a, q ≤ MAX_PRIORITY → a < AGING_INTERVAL → phi q a ≤ n →
    (ageIter n (q, a)).1 = MAX_PRIORITY := by
  intro n
  induction n with
  | zero =>
    intro q a hq ha hphi
    have hM : MAX_PRIORITY = 31 := rfl
    have hA : AGING_INTERVAL = 100 := rfl
    rw [phi_eq q a ha] at hphi
    simp only [MAX_PRIORITY, AGING_INTERVAL] at hphi
    have hq31 : q = 31 := by omega
    show q = MAX_PRIORITY
    omega
  | succ n ih =>
    intro q a hq ha hphi
    have hM : MAX_PRIORITY = 31 := rfl
    have hA : AGING_INTERVAL = 100 := rfl
    rw [phi_eq q a ha] at hphi
    simp only [MAX_PRIORITY, AGING_INTERVAL] at hphi
    by_cases hq31 : q = MAX_PRIORITY
    · show (ageIter n (stepAge q a)).1 = MAX_PRIORITY
      rw [show stepAge q a = stepFrom 0 q a from rfl, stepFrom_lo 0 q a (Or.inr hq31)]
      refine ih q a hq ha ?_
      rw [phi_eq q a ha]
      simp only [MAX_PRIORITY, AGING_INTERVAL]
      omega
    · by_cases hage : a + 1 < AGING_INTERVAL
      · show (ageIter n (stepAge q a)).1 = MAX_PRIORITY
        rw [show stepAge q a = stepFrom 0 q a from rfl, stepFrom_age 0 q a (by omega) hage]
        refine ih q (a + 1) hq (by omega) ?_
        rw [phi_eq q (a + 1) (by omega)]
        simp only [MAX_PRIORITY, AGING_INTERVAL] at hq31 ⊢
        omega
      · by_cases htop : q + 1 = MAX_PRIORITY
        · show (ageIter n (stepAge q a)).1 = MAX_PRIORITY
          rw [show stepAge q a = stepFrom 0 q a from rfl,
            stepFrom_top 0 q a (by omega) (by omega) (by omega) htop]
          refine ih MAX_PRIORITY 0 (Nat.le_refl _) (by simp only [AGING_INTERVAL]; omega) ?_
          rw [phi_eq MAX_PRIORITY 0 (by simp only [AGING_INTERVAL]; omega)]
          simp only [MAX_PRIORITY, AGING_INTERVAL]
          omega
        · show (ageIter n (stepAge q a)).1 = MAX_PRIORITY
          rw [show stepAge q a = stepFrom 0 q a from rfl,
            stepFrom_up 0 q a (by omega) (by omega) (by omega) htop]
          refine ih (q + 1) 1 (by omega) (by simp only [AGING_INTERVAL]; omega) ?_
          rw [phi_eq (q + 1) 1 (by simp only [AGING_INTERVAL]; omega)]
          simp only [MAX_PRIORITY, AGING_INTERVAL] at hq31 htop ⊢
          omega

/-- **C1** (amended): with nothing running and ticks only, a ready process at
priority q < 31 reaches priority 31, but within (31 - q) x AGING_INTERVAL
aging *passes*, i.e. (31 - q) x AGING_INTERVAL^2 + 2 x AGING_INTERVAL ticks,
not (31 - q) x AGING_INTERVAL ticks. -/
theorem c1_aging_progress_amended (s : SchedState) (pid q a N : Nat)
    (hlen : s.ready_queues.length = 32)
    (hcur : s.current_process = none)
    (hat : pidAt s.ready_queues pid q a)
    (hq : q ≤ MAX_PRIORITY)
    (ha : a < AGING_INTERVAL)
    (hwrap : s.current_tick + N < 2 ^ 32)
    (hN : (MAX_PRIORITY - q) * AGING_INTERVAL * AGING_INTERVAL + 2 * AGING_INTERVAL ≤ N) :
    ∃ a', pidAt (tickIter N s).ready_queues pid MAX_PRIORITY a' := by
  have hrun := run_track N s pid q a hlen hcur hq ha hwrap hat
  have hreach : (ageIter (agePasses s.current_tick N) (q, a)).1 = MAX_PRIORITY := by
    refine ageIter_reaches (agePasses s.current_tick N) q a hq ha ?_
    rw [phi_eq q a ha]
    simp only [agePasses, MAX_PRIORITY, AGING_INTERVAL] at *
    omega
  exact ⟨(ageIter (agePasses s.current_tick N) (q, a)).2, hreach ▸ hrun⟩

theorem c1_aging_progress_witness :
    ∃ a', pidAt (tickIter 10200 cstate).ready_queues 1 MAX_PRIORITY a' :=
  c1_aging_progress_amended cstate 1 30 0 10200 (by decide) rfl (by decide) (by decide)
    (by decide) (by decide) (by decide)

end Priority

end MTOS
